import Mathlib

/-!
# Map2X plugin manager: load/unload state machine

A shallow embedding of `src/PluginManager/AbstractPluginManager.cpp` and of the
declarations of `src/PluginManager/PluginManagerStatic.h`.

* C++ strings are Lean strings, `size_t` is a natural number below `2^64`.
* `std::map<string, Plugin>` is an association list kept in ascending key order
  by `StdMap.insert`; iteration is list order.
* Raw pointers (`void*` handles, function pointers returned by `dlsym`) are
  natural numbers, `0` being the null pointer.
* The dynamic linker is a record of functions (`NativeLoader`); every operation
  of the manager returns, next to its result and the new manager, the list of
  native calls it made, in order.
* Calling through a null function pointer does not return: `Outcome.nullCall`.
-/

namespace PluginManager

/-! ## Declarations of `PluginManagerStatic.h` -/

/-- Load state of a plugin: `PluginManagerStatic::LoadState`. -/
inductive LoadState
  | NotFound
  | WrongPluginVersion
  | WrongInterfaceVersion
  | Conflicts
  | UnresolvedDependency
  | LoadFailed
  | LoadOk
  | Unknown
  | NotLoaded
  | UnloadFailed
  | IsRequired
  | IsStatic
  deriving DecidableEq, Repr

/-- Enumerator values of `LoadState` as written in the header. -/
def LoadState.toInt : LoadState → Int
  | .NotFound => -7
  | .WrongPluginVersion => -6
  | .WrongInterfaceVersion => -5
  | .Conflicts => -4
  | .UnresolvedDependency => -3
  | .LoadFailed => -2
  | .LoadOk => -1
  | .Unknown => 0
  | .NotLoaded => 1
  | .UnloadFailed => 2
  | .IsRequired => 3
  | .IsStatic => 4

/-- Bit pattern of a C `int` in 32-bit two's complement. -/
def intBits (i : Int) : Nat := (i % 4294967296).toNat

/-- The operand `LoadOk|UnloadFailed|IsStatic` of the flag test in `load` and `unload`. -/
def loadedMask : Nat :=
  intBits LoadState.LoadOk.toInt ||| intBits LoadState.UnloadFailed.toInt
    ||| intBits LoadState.IsStatic.toInt

/-- The C condition `plugin.loadState & (LoadOk|UnloadFailed|IsStatic)`: true when
the bitwise conjunction is non-zero. -/
def flagTest (s : LoadState) : Bool := (intBits s.toInt &&& loadedMask) != 0

/-- Modelled from the spec: the declaration of `PluginMetadata` (`PluginMetadata.h`)
is not among the sources. The code reads only its member `interface`; the spec
calls it an opaque record containing an interface identifier. The other contents
are an uninterpreted list. -/
structure PluginMetadata where
  interface : String
  contents : List String
  deriving DecidableEq, Repr

/-- A default-constructed `PluginMetadata`. -/
def PluginMetadata.default : PluginMetadata := { interface := "", contents := [] }

/-- Entry of the static registry: `PluginManagerStatic::StaticPlugin`. The two
members are function pointers. -/
structure StaticPlugin where
  name : String
  metadataCreator : Nat
  instancer : Nat
  deriving DecidableEq, Repr

/-- Table entry: `PluginManagerStatic::Plugin`. The member `instancer` is left
uninitialised by the constructor `Plugin()`; that is `none` here. -/
structure Plugin where
  loadState : LoadState
  metadata : PluginMetadata
  instancer : Option Nat
  handle : Nat
  deriving DecidableEq, Repr

/-- The constructor `Plugin(): loadState(Unknown), handle(0) {}`. -/
def Plugin.new : Plugin :=
  { loadState := .Unknown, metadata := PluginMetadata.default, instancer := none, handle := 0 }

/-- Build-time constants of `AbstractPluginManagerConfigure.h` (not among the
sources) and the value of the pure virtual `pluginInterface()` of the concrete
manager. -/
structure Configure where
  PLUGIN_FILENAME_PREFIX : String
  PLUGIN_FILENAME_SUFFIX : String
  PLUGIN_VERSION : Int
  pluginInterface : String

/-- The constant `PluginManagerStatic::version`. -/
def Configure.version (cfg : Configure) : Int := cfg.PLUGIN_VERSION

/-! ## `std::string` and `std::map` -/

/-- The constant `std::string::npos`, the largest `size_t`. -/
def npos : Nat := 18446744073709551615

/-- Search for the first occurrence of `pat` in `s`, the first character of `s`
having index `i`. -/
def findAt (pat : List Char) : List Char → Nat → Nat
  | [], i => if pat = [] then i else npos
  | c :: cs, i => if pat.isPrefixOf (c :: cs) then i else findAt pat cs (i + 1)

/-- The member `std::string::find(str)`: position of the first occurrence of `pat`
in `s`, or `npos`. -/
def strFind (s pat : String) : Nat := findAt pat.data s.data 0

/-- The member `std::string::substr(pos, count)` for `pos` not beyond the end of
the string (the only case the constructor produces). -/
def substr (s : String) (pos count : Nat) : String := ⟨(s.data.drop pos).take count⟩

/-- Subtraction of two `size_t` values, wrapping modulo `2^64`. -/
def sizeSub (a b : Nat) : Nat := (a + 18446744073709551616 - b) % 18446744073709551616

namespace StdMap

/-- Lookup `std::map::find`: the value stored under `name`, if any. -/
def find : List (String × Plugin) → String → Option Plugin
  | [], _ => none
  | (k, v) :: rest, name => if k = name then some v else find rest name

/-- Insertion `std::map::insert`: a new key enters at its place in ascending
order (`operator<` of `std::string`, the lexicographic order of the character
sequences); a key already present keeps its value. -/
def insert : List (String × Plugin) → String → Plugin → List (String × Plugin)
  | [], name, p => [(name, p)]
  | (k, v) :: rest, name, p =>
    if name.data < k.data then (name, p) :: (k, v) :: rest
    else if k.data < name.data then (k, v) :: insert rest name p
    else (k, v) :: rest

/-- Assignment through the reference returned by `plugins.at(name)`. -/
def assign : List (String × Plugin) → String → Plugin → List (String × Plugin)
  | [], _, _ => []
  | (k, v) :: rest, name, p =>
    if k = name then (k, p) :: rest else (k, v) :: assign rest name p

end StdMap

/-! ## The native loader and the manager -/

/-- The dynamic linker and the code of the modules it maps, as seen by the
manager. `dlopen` and `dlsym` return pointers (`0` on failure), `dlclose` returns
`0` on success. `callVersion f` is the value returned by the function at address
`f` called as `int(*)()` (the same value at every call), and `callMetadataCreator f`
is what the function at address `f`, called as `void(*)(PluginMetadata*)`, leaves
in the record it is given. -/
structure NativeLoader where
  dlopen : String → Nat
  dlsym : Nat → String → Nat
  dlclose : Nat → Int
  callVersion : Nat → Int
  callMetadataCreator : Nat → PluginMetadata → PluginMetadata

/-- A native call made by the manager, with its arguments and, for `dlopen` and
`dlsym`, the pointer returned. -/
inductive Call
  | dlopen (path : String) (handle : Nat)
  | dlsym (handle : Nat) (symbol : String) (address : Nat)
  | callVersion (address : Nat)
  | callMetadataCreator (address : Nat)
  | dlclose (handle : Nat)
  deriving DecidableEq, Repr

/-- The class `AbstractPluginManager`: the plugin directory and the table
`plugins`. -/
structure AbstractPluginManager where
  pluginDirectory : String
  plugins : List (String × Plugin)
  deriving DecidableEq, Repr

/-- What a member function does: it returns `value`, leaving the manager as
`manager` after the native calls `calls`; or it calls through a null function
pointer after the native calls `calls` and never returns. -/
inductive Outcome (α : Type)
  | returned (value : α) (manager : AbstractPluginManager) (calls : List Call)
  | nullCall (calls : List Call)
  deriving DecidableEq, Repr

/-- The static function `importStaticPlugin`, as a function of the static vector
`staticPlugins`. -/
def importStaticPlugin (cfg : Configure) (staticPlugins : List StaticPlugin)
    (name : String) (_version : Int) (metadataCreator instancer : Nat) : List StaticPlugin :=
  if _version ≠ cfg.version then staticPlugins
  else staticPlugins ++ [{ name := name, metadataCreator := metadataCreator, instancer := instancer }]

/-- Body of the constructor loop for one file name: the plugin name taken from
`file` when the file name passes the test `begin == 0 && end != string::npos`
(`first` and `last` are the variables `begin` and `end` of the source). -/
def pluginName (cfg : Configure) (file : String) : Option String :=
  let first := if cfg.PLUGIN_FILENAME_PREFIX ≠ "" then strFind file cfg.PLUGIN_FILENAME_PREFIX else 0
  let last := strFind file cfg.PLUGIN_FILENAME_SUFFIX
  if first = 0 ∧ last ≠ npos then
    some (substr file (first + cfg.PLUGIN_FILENAME_PREFIX.length)
      (sizeSub last cfg.PLUGIN_FILENAME_PREFIX.length))
  else none

/-- One iteration of the constructor loop. -/
def addFile (cfg : Configure) (plugins : List (String × Plugin)) (file : String) :
    List (String × Plugin) :=
  match pluginName cfg file with
  | some name => StdMap.insert plugins name { Plugin.new with loadState := .Unknown }
  | none => plugins

/-- The constructor `AbstractPluginManager(pluginDirectory)`; `listing` is what the
iteration over `Directory d(...)` yields (directories and special files skipped). -/
def AbstractPluginManager.new (cfg : Configure) (pluginDirectory : String)
    (listing : List String) : AbstractPluginManager :=
  { pluginDirectory := pluginDirectory, plugins := listing.foldl (addFile cfg) [] }

/-- The member `nameList()`: the keys in iteration order of the map. -/
def nameList (m : AbstractPluginManager) : List String := m.plugins.map Prod.fst

/-- The member `loadState(name)`. -/
def loadState (m : AbstractPluginManager) (name : String) : LoadState :=
  match StdMap.find m.plugins name with
  | none => .NotFound
  | some plugin => plugin.loadState

/-- The manager after an assignment to the entry `plugins.at(name)`. -/
def AbstractPluginManager.assign (m : AbstractPluginManager) (name : String) (p : Plugin) :
    AbstractPluginManager :=
  { m with plugins := StdMap.assign m.plugins name p }

/-- The file name given to `dlopen` by `load(name)`:
`_pluginDirectory + PLUGIN_FILENAME_PREFIX + name + PLUGIN_FILENAME_SUFFIX`. -/
def modulePath (cfg : Configure) (m : AbstractPluginManager) (name : String) : String :=
  m.pluginDirectory ++ cfg.PLUGIN_FILENAME_PREFIX ++ name ++ cfg.PLUGIN_FILENAME_SUFFIX

/-- The member `load(name)`. -/
def load (cfg : Configure) (ld : NativeLoader) (m : AbstractPluginManager) (name : String) :
    Outcome LoadState :=
  match StdMap.find m.plugins name with
  | none => .returned .NotFound m []
  | some plugin =>
    if flagTest plugin.loadState then .returned plugin.loadState m []
    else
      let path := modulePath cfg m name
      let handle := ld.dlopen path
      let c1 := [Call.dlopen path handle]
      if handle = 0 then
        .returned .LoadFailed (m.assign name { plugin with loadState := .LoadFailed }) c1
      else
        let _version := ld.dlsym handle "pluginVersion"
        let c2 := c1 ++ [Call.dlsym handle "pluginVersion" _version]
        if _version = 0 then .nullCall c2
        else if ld.callVersion _version = 0 then
          .returned .WrongPluginVersion
            (m.assign name { plugin with loadState := .WrongPluginVersion })
            (c2 ++ [Call.callVersion _version, Call.dlclose handle])
        else if ld.callVersion _version ≠ cfg.version then
          .returned .WrongPluginVersion
            (m.assign name { plugin with loadState := .WrongPluginVersion })
            (c2 ++ [Call.callVersion _version, Call.callVersion _version, Call.dlclose handle])
        else
          let metadataCreator := ld.dlsym handle "pluginMetadataCreator"
          let c3 := c2 ++ [Call.callVersion _version, Call.callVersion _version,
            Call.dlsym handle "pluginMetadataCreator" metadataCreator]
          if metadataCreator = 0 then
            .returned .LoadFailed (m.assign name { plugin with loadState := .LoadFailed })
              (c3 ++ [Call.dlclose handle])
          else
            let metadata := ld.callMetadataCreator metadataCreator plugin.metadata
            let c4 := c3 ++ [Call.callMetadataCreator metadataCreator]
            if metadata.interface ≠ cfg.pluginInterface then
              .returned .WrongInterfaceVersion
                (m.assign name { plugin with metadata := metadata, loadState := .WrongInterfaceVersion })
                (c4 ++ [Call.dlclose handle])
            else
              let instancer := ld.dlsym handle "pluginInstancer"
              let c5 := c4 ++ [Call.dlsym handle "pluginInstancer" instancer]
              if instancer = 0 then
                .returned .LoadFailed
                  (m.assign name { plugin with metadata := metadata, loadState := .LoadFailed })
                  (c5 ++ [Call.dlclose handle])
              else
                .returned .LoadOk
                  (m.assign name { loadState := .LoadOk, metadata := metadata,
                                   instancer := some instancer, handle := handle })
                  c5

/-- The member `unload(name)`. -/
def unload (ld : NativeLoader) (m : AbstractPluginManager) (name : String) :
    Outcome LoadState :=
  match StdMap.find m.plugins name with
  | none => .returned .NotFound m []
  | some plugin =>
    if !(flagTest plugin.loadState) then .returned plugin.loadState m []
    else if ld.dlclose plugin.handle ≠ 0 then
      .returned .UnloadFailed (m.assign name { plugin with loadState := .UnloadFailed })
        [Call.dlclose plugin.handle]
    else
      .returned .NotLoaded (m.assign name { plugin with loadState := .NotLoaded })
        [Call.dlclose plugin.handle]

/-- The member `metadata(name)`; the null pointer is `none`. -/
def metadata (cfg : Configure) (ld : NativeLoader) (m : AbstractPluginManager) (name : String) :
    Outcome (Option PluginMetadata) :=
  match StdMap.find m.plugins name with
  | none => .returned none m []
  | some plugin =>
    if plugin.loadState = .Unknown then
      match load cfg ld m name with
      | .returned _ m1 calls =>
        .returned ((StdMap.find m1.plugins name).map Plugin.metadata) m1 calls
      | .nullCall calls => .nullCall calls
    else .returned (some plugin.metadata) m []

/-- The loop of `loadAll()` over the keys still to visit. -/
def loadAllFrom (cfg : Configure) (ld : NativeLoader) :
    List String → AbstractPluginManager → List Call → Outcome Unit
  | [], m, calls => .returned () m calls
  | name :: rest, m, calls =>
    match load cfg ld m name with
    | .returned _ m1 c => loadAllFrom cfg ld rest m1 (calls ++ c)
    | .nullCall c => .nullCall (calls ++ c)

/-- The member `loadAll()`. -/
def loadAll (cfg : Configure) (ld : NativeLoader) (m : AbstractPluginManager) : Outcome Unit :=
  loadAllFrom cfg ld (nameList m) m []

/-! ## Sequences of calls and observations on the native calls -/

/-- A call of a member function that can change the manager. -/
inductive Request
  | load (name : String)
  | unload (name : String)
  | metadata (name : String)
  | loadAll
  deriving DecidableEq, Repr

/-- The manager after a call that returned; `none` when the call never returns. -/
def Outcome.after {α : Type} : Outcome α → Option AbstractPluginManager
  | .returned _ m _ => some m
  | .nullCall _ => none

/-- The manager after one request against the loader `ld`. -/
def perform (cfg : Configure) (ld : NativeLoader) (m : AbstractPluginManager) :
    Request → Option AbstractPluginManager
  | .load name => (load cfg ld m name).after
  | .unload name => (unload ld m name).after
  | .metadata name => (metadata cfg ld m name).after
  | .loadAll => (loadAll cfg ld m).after

/-- The manager after a sequence of requests, each against the loader behaviour
in force at the time of the call. -/
def performAll (cfg : Configure) :
    AbstractPluginManager → List (NativeLoader × Request) → Option AbstractPluginManager
  | m, [] => some m
  | m, (ld, r) :: rest =>
    match perform cfg ld m r with
    | some m1 => performAll cfg m1 rest
    | none => none

/-- The `dlopen` and `dlclose` calls among `calls`, in order. -/
def opensAndCloses (calls : List Call) : List Call :=
  calls.filter fun c =>
    match c with
    | .dlopen _ _ => true
    | .dlclose _ => true
    | _ => false

/-! ## A concrete directory and loader

Prefix `lib`, suffix `.so`, version `1`, interface `iface`. The module `libA.so` is
well formed; `libB.so` cannot be opened; `libV.so` reports version `2`; `libZ.so`
reports version `0`; `libI.so` records the interface `other`; `libN.so` does not
export `pluginVersion`; `libM.so` does not export `pluginMetadataCreator`;
`libK.so` does not export `pluginInstancer`. Closing the null handle fails. -/

/-- Configuration of the concrete example. -/
def demoConfigure : Configure :=
  { PLUGIN_FILENAME_PREFIX := "lib", PLUGIN_FILENAME_SUFFIX := ".so", PLUGIN_VERSION := 1,
    pluginInterface := "iface" }

/-- Loader of the concrete example. The symbols of the module with handle `h` are at the
addresses `10 * h + 1` (version), `10 * h + 2` (metadata creator), `10 * h + 3`
(instancer). -/
def demoLoader : NativeLoader :=
  { dlopen := fun path =>
      if path = "/p/libA.so" then 7
      else if path = "/p/libV.so" then 8
      else if path = "/p/libZ.so" then 9
      else if path = "/p/libI.so" then 10
      else if path = "/p/libN.so" then 11
      else if path = "/p/libM.so" then 12
      else if path = "/p/libK.so" then 13
      else 0
    dlsym := fun handle symbol =>
      if handle = 0 then 0
      else if symbol = "pluginVersion" then (if handle = 11 then 0 else 10 * handle + 1)
      else if symbol = "pluginMetadataCreator" then (if handle = 12 then 0 else 10 * handle + 2)
      else if symbol = "pluginInstancer" then (if handle = 13 then 0 else 10 * handle + 3)
      else 0
    dlclose := fun handle => if handle = 0 then -1 else 0
    callVersion := fun address => if address = 81 then 2 else if address = 91 then 0 else 1
    callMetadataCreator := fun address _ =>
      if address = 102 then { interface := "other", contents := ["I"] }
      else { interface := "iface", contents := ["A"] } }

/-- The entry of a module loaded from handle `h` by the concrete loader. -/
def demoLoadedPlugin (h : Nat) : Plugin :=
  { loadState := .LoadOk, metadata := { interface := "iface", contents := ["A"] },
    instancer := some (10 * h + 3), handle := h }

/-- Loader of the concrete example in which `libB.so` opens too (handle `8`) and,
like `libV.so`, reports version `2`. -/
def demoLoaderB : NativeLoader :=
  { demoLoader with
    dlopen := fun path => if path = "/p/libB.so" then 8 else demoLoader.dlopen path }

/-! ## The wording of the specification for discovery

Two definitions that follow the text of the specification, not the code; the
code is compared with them. -/

/-- Offset of the first occurrence of `pat` in `s`, if there is one. -/
def firstOccurrence (pat : List Char) : List Char → Option Nat
  | [] => if pat = [] then some 0 else none
  | c :: cs =>
    if pat.isPrefixOf (c :: cs) then some 0 else (firstOccurrence pat cs).map (· + 1)

/-- The discovery rule in the words of the specification: a file name is a
candidate if and only if it begins with the prefix and contains the suffix after
that point; the name is the part strictly between the end of the prefix and the
start of the suffix. -/
def specPluginName (cfg : Configure) (file : String) : Option String :=
  if cfg.PLUGIN_FILENAME_PREFIX.data.isPrefixOf file.data then
    match firstOccurrence cfg.PLUGIN_FILENAME_SUFFIX.data
        (file.data.drop cfg.PLUGIN_FILENAME_PREFIX.length) with
    | some k => some ⟨(file.data.drop cfg.PLUGIN_FILENAME_PREFIX.length).take k⟩
    | none => none
  else none

/-- The order of `nameList()` in the words of the specification, discovery order:
the name of each candidate file in the order of enumeration, a name that came up
before being left out. -/
def discoveryOrder (cfg : Configure) (listing : List String) : List String :=
  listing.foldl
    (fun names file =>
      match pluginName cfg file with
      | some name => if name ∈ names then names else names ++ [name]
      | none => names)
    []

/-! ## Construction of the concrete manager

The constructor of `AbstractPluginManager` fills the table from the directory
only. The header says that the static members are used by the `PluginManager`
template classes; these are not among the sources, and what they do with the
static registry at construction is taken from the specification. -/

/-- What the code maintains between the members `loadState` and `handle` of an
entry: an entry in state `LoadOk` has a handle, and an entry that is `Unknown` or
in one of the failure states of `load` has none. -/
def handleConsistent (p : Plugin) : Prop :=
  (p.loadState = .LoadOk → p.handle ≠ 0)
  ∧ (p.loadState = .Unknown ∨ p.loadState = .LoadFailed ∨ p.loadState = .WrongPluginVersion
      ∨ p.loadState = .WrongInterfaceVersion → p.handle = 0)

/-! ## Lemmas on the flag test and the table -/

theorem flagTest_eq_true_iff (s : LoadState) : flagTest s = true ↔ s ≠ .Unknown := by
  cases s <;> decide

theorem flagTest_unknown : flagTest .Unknown = false := by decide

theorem flagTest_of_ne_unknown {s : LoadState} (h : s ≠ .Unknown) : flagTest s = true :=
  (flagTest_eq_true_iff s).2 h

namespace StdMap

theorem find_assign_self {m : List (String × Plugin)} {name : String} {p : Plugin} (q : Plugin)
    (h : find m name = some p) : find (assign m name q) name = some q := by
  induction m with
  | nil => simp [find] at h
  | cons kv rest ih =>
    obtain ⟨k, v⟩ := kv
    by_cases hk : k = name
    · simp [assign, find, hk]
    · simp only [find, hk, if_false] at h
      simp [assign, find, hk, ih h]

theorem find_assign_of_ne (m : List (String × Plugin)) {name other : String} (q : Plugin)
    (h : other ≠ name) : find (assign m name q) other = find m other := by
  induction m with
  | nil => simp [assign]
  | cons kv rest ih =>
    obtain ⟨k, v⟩ := kv
    by_cases hk : k = name
    · subst hk
      have : ¬ k = other := fun e => h e.symm
      simp [assign, find, this]
    · by_cases ho : k = other
      · subst ho
        simp [assign, find, hk]
      · simp [assign, find, hk, ho, ih]

theorem keys_assign (m : List (String × Plugin)) (name : String) (q : Plugin) :
    (assign m name q).map Prod.fst = m.map Prod.fst := by
  induction m with
  | nil => simp [assign]
  | cons kv rest ih =>
    obtain ⟨k, v⟩ := kv
    by_cases hk : k = name
    · simp [assign, hk]
    · simp [assign, hk, ih]

theorem assign_of_find_none {m : List (String × Plugin)} {name : String} (q : Plugin)
    (h : find m name = none) : assign m name q = m := by
  induction m with
  | nil => simp [assign]
  | cons kv rest ih =>
    obtain ⟨k, v⟩ := kv
    by_cases hk : k = name
    · simp [find, hk] at h
    · simp only [find, hk, if_false] at h
      simp [assign, hk, ih h]

theorem find_eq_none_iff (m : List (String × Plugin)) (name : String) :
    find m name = none ↔ name ∉ m.map Prod.fst := by
  induction m with
  | nil => simp [find]
  | cons kv rest ih =>
    obtain ⟨k, v⟩ := kv
    by_cases hk : k = name
    · simp [find, hk]
    · have hne : ¬ name = k := fun e => hk e.symm
      simp [find, hk, hne, ih]

end StdMap

/-- The start index bounds the result of a search from below, unless nothing is
found. -/
theorem findAt_ge (pat s : List Char) (i : Nat) :
    i ≤ findAt pat s i ∨ findAt pat s i = npos := by
  induction s generalizing i with
  | nil =>
    unfold findAt
    split_ifs
    · exact Or.inl (le_refl i)
    · exact Or.inr rfl
  | cons c cs ih =>
    unfold findAt
    split_ifs
    · exact Or.inl (le_refl i)
    · rcases ih (i + 1) with h | h
      · exact Or.inl (by omega)
      · exact Or.inr h

/-- A pattern found at position `0` starts the string. -/
theorem strFind_eq_zero (s pat : String) (h : strFind s pat = 0) : pat.data <+: s.data := by
  unfold strFind at h
  cases hs : s.data with
  | nil =>
    rw [hs] at h
    unfold findAt at h
    split_ifs at h with hp
    · rw [hp]
    · exact absurd h (by decide)
  | cons c cs =>
    rw [hs] at h
    unfold findAt at h
    split_ifs at h with hp
    · exact List.isPrefixOf_iff_prefix.1 hp
    · have h0 : findAt pat.data cs 1 = 0 := h
      rcases findAt_ge pat.data cs 1 with h1 | h1
      · omega
      · rw [h1] at h0
        exact absurd h0 (by decide)

/-- The call of `substr` in the constructor starts within the file name, where
`std::string::substr` does not throw. -/
theorem pluginName_start_le (cfg : Configure) (file name : String)
    (h : pluginName cfg file = some name) :
    cfg.PLUGIN_FILENAME_PREFIX.length ≤ file.length := by
  unfold pluginName at h
  by_cases hp : cfg.PLUGIN_FILENAME_PREFIX = ""
  · simp [hp]
  · simp only [hp, ne_eq, not_false_eq_true, if_true] at h
    split_ifs at h with hc
    exact (strFind_eq_zero _ _ hc.1).length_le

/-- Every state but `Unknown` passes the flag test, so `load` returns the stored
state of such an entry at once. -/
theorem load_of_ne_unknown (cfg : Configure) (ld : NativeLoader) (m : AbstractPluginManager)
    (name : String) (plugin : Plugin) (hfind : StdMap.find m.plugins name = some plugin)
    (hstate : plugin.loadState ≠ .Unknown) :
    load cfg ld m name = .returned plugin.loadState m [] := by
  simp [load, hfind, flagTest_of_ne_unknown hstate]

/-- A load that returned `LoadOk` leaves an entry in state `LoadOk` under the name. -/
theorem find_after_load_ok (cfg : Configure) (ld : NativeLoader) (m m1 : AbstractPluginManager)
    (name : String) (calls : List Call)
    (h : load cfg ld m name = .returned .LoadOk m1 calls) :
    ∃ plugin, StdMap.find m1.plugins name = some plugin ∧ plugin.loadState = .LoadOk := by
  unfold load at h
  split at h
  · simp at h
  · rename_i plugin hfind
    dsimp only at h
    split_ifs at h <;> simp only [Outcome.returned.injEq, reduceCtorEq, false_and] at h
    · obtain ⟨hs, hm, -⟩ := h
      exact ⟨plugin, hm ▸ hfind, hs⟩
    · obtain ⟨-, hm, -⟩ := h
      subst hm
      exact ⟨_, StdMap.find_assign_self _ hfind, rfl⟩

/-! ## C1: load, unload, load again -/

/-- C1, the code evaluated at the failing input: in the directory holding the
well-formed module `libA.so`, the first `load("A")` returns `LoadOk`, the following
`unload("A")` closes the handle and returns `NotLoaded`, and the second
`load("A")` returns `NotLoaded` without any native call, not `LoadOk`. -/
theorem roundtrip_second_load_returns_notLoaded :
    load demoConfigure demoLoader (AbstractPluginManager.new demoConfigure "/p/" ["libA.so"]) "A"
        = .returned .LoadOk ⟨"/p/", [("A", demoLoadedPlugin 7)]⟩
            [.dlopen "/p/libA.so" 7, .dlsym 7 "pluginVersion" 71, .callVersion 71,
             .callVersion 71, .dlsym 7 "pluginMetadataCreator" 72, .callMetadataCreator 72,
             .dlsym 7 "pluginInstancer" 73]
    ∧ unload demoLoader ⟨"/p/", [("A", demoLoadedPlugin 7)]⟩ "A"
        = .returned .NotLoaded
            ⟨"/p/", [("A", { demoLoadedPlugin 7 with loadState := .NotLoaded })]⟩ [.dlclose 7]
    ∧ load demoConfigure demoLoader
          ⟨"/p/", [("A", { demoLoadedPlugin 7 with loadState := .NotLoaded })]⟩ "A"
        = .returned .NotLoaded
            ⟨"/p/", [("A", { demoLoadedPlugin 7 with loadState := .NotLoaded })]⟩ [] := by
  decide

/-! ## C2: unload of an entry that is not loaded -/

/-- C2, the code evaluated at the failing inputs. (a) After `load("B")` failed to
open `libB.so` the entry is `LoadFailed` with a null handle; `unload("B")` calls
`dlclose` on the null handle, and as that fails it returns `UnloadFailed` and
stores it. (b) For the entry `A` in state `NotLoaded` left by a load and an
unload, `unload("A")` calls `dlclose` on the handle closed before. -/
theorem unload_not_loaded_calls_dlclose :
    load demoConfigure demoLoader (AbstractPluginManager.new demoConfigure "/p/" ["libB.so"]) "B"
        = .returned .LoadFailed ⟨"/p/", [("B", { Plugin.new with loadState := .LoadFailed })]⟩
            [.dlopen "/p/libB.so" 0]
    ∧ unload demoLoader ⟨"/p/", [("B", { Plugin.new with loadState := .LoadFailed })]⟩ "B"
        = .returned .UnloadFailed
            ⟨"/p/", [("B", { Plugin.new with loadState := .UnloadFailed })]⟩ [.dlclose 0]
    ∧ unload demoLoader ⟨"/p/", [("A", { demoLoadedPlugin 7 with loadState := .NotLoaded })]⟩ "A"
        = .returned .NotLoaded
            ⟨"/p/", [("A", { demoLoadedPlugin 7 with loadState := .NotLoaded })]⟩ [.dlclose 7] := by
  decide

/-! ## C3: load of a loaded entry -/

/-- C3: when the entry stored under `name` has state `LoadOk`, `UnloadFailed` or
`IsStatic`, `load(name)` returns that state, the manager (the whole table: states,
handles, metadata, instancers) is unchanged and no native call is made; and after
any `load(name)` that returned `LoadOk`, a second `load(name)` returns `LoadOk`,
changes nothing and makes no native call (no `dlopen`). -/
theorem load_idempotent_on_loaded (cfg : Configure) (ld : NativeLoader)
    (m : AbstractPluginManager) (name : String) :
    (∀ plugin, StdMap.find m.plugins name = some plugin →
      (plugin.loadState = .LoadOk ∨ plugin.loadState = .UnloadFailed
        ∨ plugin.loadState = .IsStatic) →
      load cfg ld m name = .returned plugin.loadState m [])
    ∧ (∀ m1 calls, load cfg ld m name = .returned .LoadOk m1 calls →
      load cfg ld m1 name = .returned .LoadOk m1 []) := by
  constructor
  · intro plugin hfind hstate
    apply load_of_ne_unknown cfg ld m name plugin hfind
    rcases hstate with h | h | h <;> simp [h]
  · intro m1 calls h
    obtain ⟨plugin, hfind, hs⟩ := find_after_load_ok cfg ld m m1 name calls h
    have := load_of_ne_unknown cfg ld m1 name plugin hfind (by simp [hs])
    rwa [hs] at this

/-- C3 at a concrete input: the loaded entry `A`, and the second of two loads of
`A` from the freshly built manager. -/
theorem load_idempotent_on_loaded_witness :
    load demoConfigure demoLoader ⟨"/p/", [("A", demoLoadedPlugin 7)]⟩ "A"
        = .returned .LoadOk ⟨"/p/", [("A", demoLoadedPlugin 7)]⟩ []
    ∧ load demoConfigure demoLoader ⟨"/p/", [("A", demoLoadedPlugin 7)]⟩ "A"
        = .returned .LoadOk ⟨"/p/", [("A", demoLoadedPlugin 7)]⟩ [] :=
  ⟨(load_idempotent_on_loaded demoConfigure demoLoader ⟨"/p/", [("A", demoLoadedPlugin 7)]⟩ "A").1
      (demoLoadedPlugin 7) (by decide) (Or.inl rfl),
   (load_idempotent_on_loaded demoConfigure demoLoader
      (AbstractPluginManager.new demoConfigure "/p/" ["libA.so"]) "A").2
      ⟨"/p/", [("A", demoLoadedPlugin 7)]⟩
      [.dlopen "/p/libA.so" 7, .dlsym 7 "pluginVersion" 71, .callVersion 71,
       .callVersion 71, .dlsym 7 "pluginMetadataCreator" 72, .callMetadataCreator 72,
       .dlsym 7 "pluginInstancer" 73] (by decide)⟩

/-! ## C4: load of an unknown name -/

/-- C4: when `name` is not a key of the table, `load(name)` returns `NotFound`,
makes no native call and leaves the manager as it was, so that `name` is still not
a key and `loadState(name)` is `NotFound`. -/
theorem load_unknown_name (cfg : Configure) (ld : NativeLoader) (m : AbstractPluginManager)
    (name : String) (h : name ∉ nameList m) :
    load cfg ld m name = .returned .NotFound m [] ∧ loadState m name = .NotFound := by
  have hnone : StdMap.find m.plugins name = none := (StdMap.find_eq_none_iff _ _).2 h
  simp [load, loadState, hnone]

/-- C4 at a concrete input: `missing` is not among the names found in the
directory. -/
theorem load_unknown_name_witness :
    "missing" ∉ nameList (AbstractPluginManager.new demoConfigure "/p/" ["libA.so", "libB.so"])
    ∧ load demoConfigure demoLoader
          (AbstractPluginManager.new demoConfigure "/p/" ["libA.so", "libB.so"]) "missing"
        = .returned .NotFound
            (AbstractPluginManager.new demoConfigure "/p/" ["libA.so", "libB.so"]) []
    ∧ loadState (AbstractPluginManager.new demoConfigure "/p/" ["libA.so", "libB.so"]) "missing"
        = .NotFound :=
  ⟨by decide, load_unknown_name demoConfigure demoLoader _ "missing" (by decide)⟩

/-! ## C5: a module of another version -/

/-- C5: for an entry in state `Unknown` whose module opens (handle `h`), whose symbol
`pluginVersion` resolves (address `f`) and returns `0` or a value other than the
version of the manager, `load` returns `WrongPluginVersion` and stores it as the
state of the entry; the only `dlopen` and `dlclose` calls are one `dlopen` of the
module path followed by one `dlclose` of `h`, and every native call made is that
`dlopen`, the lookup of `pluginVersion`, a call of it, or that `dlclose` (no lookup
or call of the metadata creator or the instancer). -/
theorem load_wrong_plugin_version (cfg : Configure) (ld : NativeLoader)
    (m : AbstractPluginManager) (name : String) (plugin : Plugin) (h f : Nat)
    (hfind : StdMap.find m.plugins name = some plugin)
    (hstate : plugin.loadState = .Unknown)
    (hopen : ld.dlopen (modulePath cfg m name) = h) (hh : h ≠ 0)
    (hsym : ld.dlsym h "pluginVersion" = f) (hf : f ≠ 0)
    (hver : ld.callVersion f = 0 ∨ ld.callVersion f ≠ cfg.version) :
    ∃ calls,
      load cfg ld m name
        = .returned .WrongPluginVersion
            (m.assign name { plugin with loadState := .WrongPluginVersion }) calls
      ∧ loadState (m.assign name { plugin with loadState := .WrongPluginVersion }) name
          = .WrongPluginVersion
      ∧ opensAndCloses calls = [.dlopen (modulePath cfg m name) h, .dlclose h]
      ∧ ∀ c ∈ calls, c = .dlopen (modulePath cfg m name) h ∨ c = .dlsym h "pluginVersion" f
          ∨ c = .callVersion f ∨ c = .dlclose h := by
  have hst : loadState (m.assign name { plugin with loadState := .WrongPluginVersion }) name
      = .WrongPluginVersion := by
    simp [loadState, AbstractPluginManager.assign, StdMap.find_assign_self _ hfind]
  by_cases hz : ld.callVersion f = 0
  · refine ⟨[.dlopen (modulePath cfg m name) h, .dlsym h "pluginVersion" f, .callVersion f,
      .dlclose h], ?_, hst, by simp [opensAndCloses], by simp⟩
    simp [load, hfind, hstate, flagTest_unknown, hopen, hh, hsym, hf, hz]
  · have hne : ld.callVersion f ≠ cfg.version := hver.resolve_left hz
    refine ⟨[.dlopen (modulePath cfg m name) h, .dlsym h "pluginVersion" f, .callVersion f,
      .callVersion f, .dlclose h], ?_, hst, by simp [opensAndCloses], by simp⟩
    simp [load, hfind, hstate, flagTest_unknown, hopen, hh, hsym, hf, hz, hne]

/-- C5 at a concrete input: `libV.so` reports version `2`, the manager has
version `1`. -/
theorem load_wrong_plugin_version_witness :
    ∃ calls,
      load demoConfigure demoLoader ⟨"/p/", [("V", Plugin.new)]⟩ "V"
        = .returned .WrongPluginVersion
            (AbstractPluginManager.assign ⟨"/p/", [("V", Plugin.new)]⟩ "V"
              { Plugin.new with loadState := .WrongPluginVersion }) calls
      ∧ loadState (AbstractPluginManager.assign ⟨"/p/", [("V", Plugin.new)]⟩ "V"
              { Plugin.new with loadState := .WrongPluginVersion }) "V" = .WrongPluginVersion
      ∧ opensAndCloses calls
          = [.dlopen (modulePath demoConfigure ⟨"/p/", [("V", Plugin.new)]⟩ "V") 8, .dlclose 8]
      ∧ ∀ c ∈ calls, c = .dlopen (modulePath demoConfigure ⟨"/p/", [("V", Plugin.new)]⟩ "V") 8
          ∨ c = .dlsym 8 "pluginVersion" 81 ∨ c = .callVersion 81 ∨ c = .dlclose 8 :=
  load_wrong_plugin_version demoConfigure demoLoader ⟨"/p/", [("V", Plugin.new)]⟩ "V" Plugin.new
    8 81 (by decide) (by decide) (by decide) (by decide) (by decide) (by decide)
    (Or.inr (by decide))

/-! ## C6: a module without `pluginVersion` -/

/-- C6, the code evaluated at the failing input: `libN.so` opens (handle `11`) and
does not export `pluginVersion`. After the `dlopen` and the failed `dlsym` the
code calls through the null pointer: `load("N")` does not return, makes no
`dlclose` and stores no state. For `libZ.so`, whose `pluginVersion` returns `0`,
`load("Z")` closes the handle and returns `WrongPluginVersion`. -/
theorem load_calls_unresolved_pluginVersion :
    load demoConfigure demoLoader (AbstractPluginManager.new demoConfigure "/p/" ["libN.so"]) "N"
        = .nullCall [.dlopen "/p/libN.so" 11, .dlsym 11 "pluginVersion" 0]
    ∧ load demoConfigure demoLoader (AbstractPluginManager.new demoConfigure "/p/" ["libZ.so"]) "Z"
        = .returned .WrongPluginVersion
            ⟨"/p/", [("Z", { Plugin.new with loadState := .WrongPluginVersion })]⟩
            [.dlopen "/p/libZ.so" 9, .dlsym 9 "pluginVersion" 91, .callVersion 91, .dlclose 9] := by
  decide

/-! ## C7: a module of another interface -/

/-- C7: for an entry in state `Unknown` whose module opens (handle `h`), whose
`pluginVersion` (address `f`) returns the version of the manager, that version
being non-zero, and which exports a metadata creator (address `g`) recording an
interface other than `pluginInterface()`, `load` returns `WrongInterfaceVersion`
and stores it as the state of the entry; `dlclose` is called exactly once, on `h`;
and the members `handle` and `instancer` of the entry keep the values they had
before the call (the opened handle is not stored, no instancer is stored). -/
theorem load_wrong_interface_version (cfg : Configure) (ld : NativeLoader)
    (m : AbstractPluginManager) (name : String) (plugin : Plugin) (h f g : Nat)
    (hfind : StdMap.find m.plugins name = some plugin)
    (hstate : plugin.loadState = .Unknown)
    (hopen : ld.dlopen (modulePath cfg m name) = h) (hh : h ≠ 0)
    (hsym : ld.dlsym h "pluginVersion" = f) (hf : f ≠ 0)
    (hver : ld.callVersion f = cfg.version) (hnz : cfg.version ≠ 0)
    (hcreator : ld.dlsym h "pluginMetadataCreator" = g) (hg : g ≠ 0)
    (hiface : (ld.callMetadataCreator g plugin.metadata).interface ≠ cfg.pluginInterface) :
    ∃ m1 calls entry,
      load cfg ld m name = .returned .WrongInterfaceVersion m1 calls
      ∧ StdMap.find m1.plugins name = some entry
      ∧ entry.loadState = .WrongInterfaceVersion
      ∧ loadState m1 name = .WrongInterfaceVersion
      ∧ calls.count (.dlclose h) = 1
      ∧ (∀ h1, Call.dlclose h1 ∈ calls → h1 = h)
      ∧ entry.handle = plugin.handle
      ∧ entry.instancer = plugin.instancer := by
  refine ⟨m.assign name { plugin with
      metadata := ld.callMetadataCreator g plugin.metadata,
      loadState := .WrongInterfaceVersion },
    [.dlopen (modulePath cfg m name) h, .dlsym h "pluginVersion" f, .callVersion f,
      .callVersion f, .dlsym h "pluginMetadataCreator" g, .callMetadataCreator g, .dlclose h],
    { plugin with
      metadata := ld.callMetadataCreator g plugin.metadata,
      loadState := .WrongInterfaceVersion }, ?_, ?_, rfl, ?_, ?_, ?_, rfl, rfl⟩
  · simp [load, hfind, hstate, flagTest_unknown, hopen, hh, hsym, hf, hver, hnz, hcreator, hg,
      hiface]
  · simp [AbstractPluginManager.assign, StdMap.find_assign_self _ hfind]
  · simp [loadState, AbstractPluginManager.assign, StdMap.find_assign_self _ hfind]
  · simp [List.count_cons]
  · simp

/-- C7 at a concrete input: `libI.so` has the version of the manager and records
the interface `other`, the manager requires `iface`. -/
theorem load_wrong_interface_version_witness :
    ∃ m1 calls entry,
      load demoConfigure demoLoader ⟨"/p/", [("I", Plugin.new)]⟩ "I"
        = .returned .WrongInterfaceVersion m1 calls
      ∧ StdMap.find m1.plugins "I" = some entry
      ∧ entry.loadState = .WrongInterfaceVersion
      ∧ loadState m1 "I" = .WrongInterfaceVersion
      ∧ calls.count (.dlclose 10) = 1
      ∧ (∀ h1, Call.dlclose h1 ∈ calls → h1 = 10)
      ∧ entry.handle = 0
      ∧ entry.instancer = none :=
  load_wrong_interface_version demoConfigure demoLoader ⟨"/p/", [("I", Plugin.new)]⟩ "I"
    Plugin.new 10 101 102 (by decide) (by decide) (by decide) (by decide) (by decide)
    (by decide) (by decide) (by decide) (by decide) (by decide) (by decide)

/-! ## C8: no handle leaks from a failed load -/

/-- C8: whenever `load` returns, (1) if its native calls include a `dlopen` that
gave a non-null handle `h` and the value returned is not `LoadOk`, then that value
is `WrongPluginVersion`, `WrongInterfaceVersion` or `LoadFailed`, the `dlopen` and
`dlclose` calls made are exactly that `dlopen` followed by one `dlclose` of `h`,
which is the last native call before the return, and the member `handle` of the
entry is what it was before the call (`h` is not stored); (2) if its native calls
include a `dlopen` that gave the null handle, the value returned is `LoadFailed`
and no `dlclose` was called. -/
theorem load_failure_closes_handle (cfg : Configure) (ld : NativeLoader)
    (m : AbstractPluginManager) (name : String) (r : LoadState) (m1 : AbstractPluginManager)
    (calls : List Call) (hret : load cfg ld m name = .returned r m1 calls) :
    (∀ path h, Call.dlopen path h ∈ calls → h ≠ 0 → r ≠ .LoadOk →
      (r = .WrongPluginVersion ∨ r = .WrongInterfaceVersion ∨ r = .LoadFailed)
      ∧ opensAndCloses calls = [.dlopen path h, .dlclose h]
      ∧ calls.count (.dlclose h) = 1
      ∧ calls.getLast? = some (.dlclose h)
      ∧ (StdMap.find m1.plugins name).map Plugin.handle
          = (StdMap.find m.plugins name).map Plugin.handle)
    ∧ (∀ path, Call.dlopen path 0 ∈ calls →
      r = .LoadFailed ∧ ∀ h, Call.dlclose h ∉ calls) := by
  unfold load at hret
  split at hret
  · simp only [Outcome.returned.injEq] at hret
    obtain ⟨-, -, rfl⟩ := hret
    simp
  · rename_i plugin hfind
    dsimp only at hret
    split_ifs at hret <;> simp only [Outcome.returned.injEq, reduceCtorEq] at hret <;>
      obtain ⟨rfl, rfl, rfl⟩ := hret <;>
      simp_all [opensAndCloses, List.count_cons, AbstractPluginManager.assign,
        StdMap.find_assign_self _ hfind] <;>
      exact fun h0 => ‹¬ ld.dlopen (modulePath cfg m name) = 0› h0.symm

/-- C8 at concrete inputs: `libM.so` opens (handle `12`) and has no metadata
creator, `libB.so` does not open. -/
theorem load_failure_closes_handle_witness :
    ((LoadState.LoadFailed = .WrongPluginVersion ∨ LoadState.LoadFailed = .WrongInterfaceVersion
        ∨ LoadState.LoadFailed = .LoadFailed)
      ∧ opensAndCloses [.dlopen "/p/libM.so" 12, .dlsym 12 "pluginVersion" 121, .callVersion 121,
          .callVersion 121, .dlsym 12 "pluginMetadataCreator" 0, .dlclose 12]
          = [.dlopen "/p/libM.so" 12, .dlclose 12]
      ∧ List.count (Call.dlclose 12) [.dlopen "/p/libM.so" 12, .dlsym 12 "pluginVersion" 121,
          .callVersion 121, .callVersion 121, .dlsym 12 "pluginMetadataCreator" 0, .dlclose 12] = 1
      ∧ List.getLast? [Call.dlopen "/p/libM.so" 12, .dlsym 12 "pluginVersion" 121,
          .callVersion 121, .callVersion 121, .dlsym 12 "pluginMetadataCreator" 0, .dlclose 12]
          = some (.dlclose 12)
      ∧ (StdMap.find
            (AbstractPluginManager.mk "/p/" [("M", { Plugin.new with loadState := .LoadFailed })]).plugins
            "M").map Plugin.handle
          = (StdMap.find (AbstractPluginManager.mk "/p/" [("M", Plugin.new)]).plugins "M").map
              Plugin.handle)
    ∧ (LoadState.LoadFailed = .LoadFailed
      ∧ ∀ h, Call.dlclose h ∉ [Call.dlopen "/p/libB.so" 0]) :=
  ⟨(load_failure_closes_handle demoConfigure demoLoader ⟨"/p/", [("M", Plugin.new)]⟩ "M"
      .LoadFailed ⟨"/p/", [("M", { Plugin.new with loadState := .LoadFailed })]⟩
      [.dlopen "/p/libM.so" 12, .dlsym 12 "pluginVersion" 121, .callVersion 121,
        .callVersion 121, .dlsym 12 "pluginMetadataCreator" 0, .dlclose 12] (by decide)).1
      "/p/libM.so" 12 (by decide) (by decide) (by decide),
   (load_failure_closes_handle demoConfigure demoLoader ⟨"/p/", [("B", Plugin.new)]⟩ "B"
      .LoadFailed ⟨"/p/", [("B", { Plugin.new with loadState := .LoadFailed })]⟩
      [.dlopen "/p/libB.so" 0] (by decide)).2 "/p/libB.so" (by decide)⟩

/-- The only way for `load` not to return: the entry is in state `Unknown`, the
module opens and `pluginVersion` does not resolve. -/
theorem load_nullCall_iff (cfg : Configure) (ld : NativeLoader) (m : AbstractPluginManager)
    (name : String) (calls : List Call) :
    load cfg ld m name = .nullCall calls ↔
      ∃ plugin, StdMap.find m.plugins name = some plugin ∧ plugin.loadState = .Unknown
        ∧ ld.dlopen (modulePath cfg m name) ≠ 0
        ∧ ld.dlsym (ld.dlopen (modulePath cfg m name)) "pluginVersion" = 0
        ∧ calls = [.dlopen (modulePath cfg m name) (ld.dlopen (modulePath cfg m name)),
            .dlsym (ld.dlopen (modulePath cfg m name)) "pluginVersion" 0] := by
  constructor
  · intro hcall
    unfold load at hcall
    split at hcall
    · simp at hcall
    · rename_i plugin hfind
      dsimp only at hcall
      split_ifs at hcall with h1 h2 h3
      simp only [Outcome.nullCall.injEq] at hcall
      refine ⟨plugin, hfind, ?_, h2, h3, ?_⟩
      · by_contra hne
        simp [flagTest_of_ne_unknown hne] at h1
      · rw [← hcall, h3]
        rfl
  · rintro ⟨plugin, hfind, hs, ho, hsym, rfl⟩
    simp [load, hfind, hs, flagTest_unknown, ho, hsym]

/-! ## C9: when a load succeeds -/

/-- C9: for an entry in state `Unknown`, with `h` the result of `dlopen` on
`directory + prefix + name + suffix` and `f`, `g`, `i` the results of `dlsym` on
`h` for `pluginVersion`, `pluginMetadataCreator` and `pluginInstancer`: `load`
returns `LoadOk` if and only if `h` is not null, `f` is not null and the function
at `f` returns a non-zero value equal to the version of the manager, `g` is not
null, the metadata left by the function at `g` records the interface
`pluginInterface()`, and `i` is not null. In that case the entry afterwards holds
the state `LoadOk`, that metadata, the instancer `i` and the handle `h`, and no
`dlclose` was called. -/
theorem load_ok_iff (cfg : Configure) (ld : NativeLoader) (m : AbstractPluginManager)
    (name : String) (plugin : Plugin) (h f g i : Nat)
    (hfind : StdMap.find m.plugins name = some plugin)
    (hstate : plugin.loadState = .Unknown)
    (hopen : ld.dlopen (m.pluginDirectory ++ cfg.PLUGIN_FILENAME_PREFIX ++ name
      ++ cfg.PLUGIN_FILENAME_SUFFIX) = h)
    (hsym : ld.dlsym h "pluginVersion" = f)
    (hcreator : ld.dlsym h "pluginMetadataCreator" = g)
    (hinst : ld.dlsym h "pluginInstancer" = i) :
    ((∃ m1 calls, load cfg ld m name = .returned .LoadOk m1 calls) ↔
      (h ≠ 0 ∧ f ≠ 0 ∧ ld.callVersion f ≠ 0 ∧ ld.callVersion f = cfg.version ∧ g ≠ 0
        ∧ (ld.callMetadataCreator g plugin.metadata).interface = cfg.pluginInterface ∧ i ≠ 0))
    ∧ (∀ m1 calls, load cfg ld m name = .returned .LoadOk m1 calls →
      StdMap.find m1.plugins name
          = some { loadState := .LoadOk, metadata := ld.callMetadataCreator g plugin.metadata,
                   instancer := some i, handle := h }
      ∧ ∀ h1, Call.dlclose h1 ∉ calls) := by
  have hopen1 : ld.dlopen (modulePath cfg m name) = h := hopen
  have key : ∀ m1 calls, load cfg ld m name = .returned .LoadOk m1 calls →
      (h ≠ 0 ∧ f ≠ 0 ∧ ld.callVersion f ≠ 0 ∧ ld.callVersion f = cfg.version ∧ g ≠ 0
        ∧ (ld.callMetadataCreator g plugin.metadata).interface = cfg.pluginInterface ∧ i ≠ 0)
      ∧ m1 = m.assign name
          (Plugin.mk .LoadOk (ld.callMetadataCreator g plugin.metadata) (some i) h)
      ∧ ∀ h1, Call.dlclose h1 ∉ calls := by
    intro m1 calls hret
    unfold load at hret
    split at hret
    · simp at hret
    · rename_i entry hentry
      obtain rfl : plugin = entry := Option.some.inj (hfind.symm.trans hentry)
      dsimp only at hret
      rw [hopen1, hsym, hcreator, hinst] at hret
      split_ifs at hret with h1 h2 h3 h4 h5 h6 h7 h8 <;>
        simp only [Outcome.returned.injEq, reduceCtorEq, false_and] at hret
      · rw [hstate] at hret
        exact absurd hret.1 (by decide)
      · obtain ⟨-, rfl, rfl⟩ := hret
        refine ⟨⟨h2, h3, h4, not_not.1 h5, h6, not_not.1 h7, h8⟩, rfl, ?_⟩
        simp
  constructor
  · constructor
    · rintro ⟨m1, calls, hret⟩
      exact (key m1 calls hret).1
    · rintro ⟨h1, h2, h3, h4, h5, h6, h7⟩
      refine ⟨m.assign name
          (Plugin.mk .LoadOk (ld.callMetadataCreator g plugin.metadata) (some i) h),
        [.dlopen (modulePath cfg m name) h, .dlsym h "pluginVersion" f, .callVersion f,
          .callVersion f, .dlsym h "pluginMetadataCreator" g, .callMetadataCreator g,
          .dlsym h "pluginInstancer" i], ?_⟩
      simp [load, hfind, hstate, flagTest_unknown, hopen1, hsym, hcreator, hinst, h1, h2, h4, h5,
        h6, h7, h4 ▸ h3]
  · intro m1 calls hret
    obtain ⟨-, rfl, hclose⟩ := key m1 calls hret
    exact ⟨by simp [AbstractPluginManager.assign, StdMap.find_assign_self _ hfind], hclose⟩

/-- C9 at a concrete input: the well-formed module `libA.so`. -/
theorem load_ok_iff_witness :
    ((∃ m1 calls, load demoConfigure demoLoader ⟨"/p/", [("A", Plugin.new)]⟩ "A"
        = .returned .LoadOk m1 calls) ↔
      (7 ≠ 0 ∧ 71 ≠ 0 ∧ demoLoader.callVersion 71 ≠ 0
        ∧ demoLoader.callVersion 71 = demoConfigure.version ∧ 72 ≠ 0
        ∧ (demoLoader.callMetadataCreator 72 Plugin.new.metadata).interface
            = demoConfigure.pluginInterface ∧ 73 ≠ 0))
    ∧ (∀ m1 calls, load demoConfigure demoLoader ⟨"/p/", [("A", Plugin.new)]⟩ "A"
        = .returned .LoadOk m1 calls →
      StdMap.find m1.plugins "A"
          = some { loadState := .LoadOk,
                   metadata := demoLoader.callMetadataCreator 72 Plugin.new.metadata,
                   instancer := some 73, handle := 7 }
      ∧ ∀ h1, Call.dlclose h1 ∉ calls) :=
  load_ok_iff demoConfigure demoLoader ⟨"/p/", [("A", Plugin.new)]⟩ "A" Plugin.new 7 71 72 73
    (by decide) (by decide) (by decide) (by decide) (by decide) (by decide)

/-! ## C10: the names known to the manager -/

namespace StdMap

theorem mem_keys_insert (m : List (String × Plugin)) (name : String) (p : Plugin) (n : String) :
    n ∈ (insert m name p).map Prod.fst ↔ n = name ∨ n ∈ m.map Prod.fst := by
  induction m with
  | nil => simp [insert]
  | cons kv rest ih =>
    obtain ⟨k, v⟩ := kv
    unfold insert
    split_ifs with h1 h2
    · simp
    · simp only [List.map_cons, List.mem_cons, ih]
      tauto
    · have hk : name.data = k.data := le_antisymm (not_lt.1 h2) (not_lt.1 h1)
      have hname : name = k := String.ext hk
      subst hname
      simp

theorem ascending_insert (m : List (String × Plugin)) (name : String) (p : Plugin)
    (hm : (m.map Prod.fst).Pairwise fun a b => a.data < b.data) :
    ((insert m name p).map Prod.fst).Pairwise fun a b => a.data < b.data := by
  induction m with
  | nil => simp [insert]
  | cons kv rest ih =>
    obtain ⟨k, v⟩ := kv
    simp only [List.map_cons, List.pairwise_cons] at hm
    unfold insert
    split_ifs with h1 h2
    · simp only [List.map_cons, List.pairwise_cons, List.mem_cons]
      refine ⟨?_, hm.1, hm.2⟩
      rintro b (rfl | hb)
      · exact h1
      · exact lt_trans h1 (hm.1 b hb)
    · simp only [List.map_cons, List.pairwise_cons]
      refine ⟨?_, ih hm.2⟩
      intro b hb
      rcases (mem_keys_insert rest name p b).1 hb with rfl | hb
      · exact h2
      · exact hm.1 b hb
    · simpa only [List.map_cons, List.pairwise_cons] using hm

theorem nodup_of_ascending (ks : List String)
    (h : ks.Pairwise fun a b => a.data < b.data) : ks.Nodup := by
  unfold List.Nodup
  refine h.imp ?_
  intro a b hab e
  subst e
  exact lt_irrefl _ hab

end StdMap

theorem mem_keys_addFile (cfg : Configure) (plugins : List (String × Plugin)) (file n : String) :
    n ∈ (addFile cfg plugins file).map Prod.fst ↔
      pluginName cfg file = some n ∨ n ∈ plugins.map Prod.fst := by
  unfold addFile
  cases hname : pluginName cfg file with
  | none => simp
  | some name =>
    rw [StdMap.mem_keys_insert]
    simp only [Option.some.injEq, eq_comm]

theorem ascending_addFile (cfg : Configure) (plugins : List (String × Plugin)) (file : String)
    (h : (plugins.map Prod.fst).Pairwise fun a b => a.data < b.data) :
    ((addFile cfg plugins file).map Prod.fst).Pairwise fun a b => a.data < b.data := by
  unfold addFile
  cases pluginName cfg file with
  | none => exact h
  | some name => exact StdMap.ascending_insert _ _ _ h

theorem mem_keys_foldl_addFile (cfg : Configure) (listing : List String)
    (plugins : List (String × Plugin)) (n : String) :
    n ∈ (listing.foldl (addFile cfg) plugins).map Prod.fst ↔
      (∃ file ∈ listing, pluginName cfg file = some n) ∨ n ∈ plugins.map Prod.fst := by
  induction listing generalizing plugins with
  | nil => simp
  | cons file rest ih =>
    rw [List.foldl_cons, ih, mem_keys_addFile]
    constructor
    · rintro (⟨f, hf, hn⟩ | h | h)
      · exact Or.inl ⟨f, List.mem_cons_of_mem _ hf, hn⟩
      · exact Or.inl ⟨file, List.mem_cons_self _ _, h⟩
      · exact Or.inr h
    · rintro (⟨f, hf, hn⟩ | h)
      · rcases List.mem_cons.1 hf with rfl | hf
        · exact Or.inr (Or.inl hn)
        · exact Or.inl ⟨f, hf, hn⟩
      · exact Or.inr (Or.inr h)

theorem ascending_foldl_addFile (cfg : Configure) (listing : List String)
    (plugins : List (String × Plugin))
    (h : (plugins.map Prod.fst).Pairwise fun a b => a.data < b.data) :
    ((listing.foldl (addFile cfg) plugins).map Prod.fst).Pairwise fun a b => a.data < b.data := by
  induction listing generalizing plugins with
  | nil => exact h
  | cons file rest ih => exact ih _ (ascending_addFile cfg plugins file h)

theorem nameList_assign (m : AbstractPluginManager) (name : String) (p : Plugin) :
    nameList (m.assign name p) = nameList m := by
  simp [nameList, AbstractPluginManager.assign, StdMap.keys_assign]

/-- A load that returns leaves the manager as it was or assigns to the entry of
the name. -/
theorem load_manager_cases (cfg : Configure) (ld : NativeLoader) (m m1 : AbstractPluginManager)
    (name : String) (r : LoadState) (calls : List Call)
    (h : load cfg ld m name = .returned r m1 calls) :
    m1 = m ∨ ∃ p, m1 = m.assign name p := by
  unfold load at h
  split at h
  · simp only [Outcome.returned.injEq] at h
    exact Or.inl h.2.1.symm
  · dsimp only at h
    split_ifs at h <;> simp only [Outcome.returned.injEq, reduceCtorEq] at h <;>
      first
      | exact Or.inl h.2.1.symm
      | exact Or.inr ⟨_, h.2.1.symm⟩

theorem load_nameList (cfg : Configure) (ld : NativeLoader) (m m1 : AbstractPluginManager)
    (name : String) (r : LoadState) (calls : List Call)
    (h : load cfg ld m name = .returned r m1 calls) : nameList m1 = nameList m := by
  rcases load_manager_cases cfg ld m m1 name r calls h with rfl | ⟨p, rfl⟩
  · rfl
  · exact nameList_assign m name p

theorem unload_nameList (ld : NativeLoader) (m m1 : AbstractPluginManager)
    (name : String) (r : LoadState) (calls : List Call)
    (h : unload ld m name = .returned r m1 calls) : nameList m1 = nameList m := by
  unfold unload at h
  split at h
  · simp only [Outcome.returned.injEq] at h
    rw [← h.2.1]
  · split_ifs at h <;> simp only [Outcome.returned.injEq] at h <;> rw [← h.2.1] <;>
      first
      | rfl
      | exact nameList_assign m name _

theorem metadata_nameList (cfg : Configure) (ld : NativeLoader) (m m1 : AbstractPluginManager)
    (name : String) (r : Option PluginMetadata) (calls : List Call)
    (h : metadata cfg ld m name = .returned r m1 calls) : nameList m1 = nameList m := by
  unfold metadata at h
  split at h
  · simp only [Outcome.returned.injEq] at h
    rw [← h.2.1]
  · split_ifs at h
    · split at h
      · rename_i hload
        simp only [Outcome.returned.injEq] at h
        rw [← h.2.1]
        exact load_nameList cfg ld m _ name _ _ hload
      · simp at h
    · simp only [Outcome.returned.injEq] at h
      rw [← h.2.1]

theorem loadAllFrom_nameList (cfg : Configure) (ld : NativeLoader) (names : List String)
    (m m1 : AbstractPluginManager) (calls calls1 : List Call)
    (h : loadAllFrom cfg ld names m calls = .returned () m1 calls1) :
    nameList m1 = nameList m := by
  induction names generalizing m calls with
  | nil =>
    simp only [loadAllFrom, Outcome.returned.injEq] at h
    rw [← h.2.1]
  | cons name rest ih =>
    unfold loadAllFrom at h
    split at h
    · rename_i hload
      rw [ih _ _ h]
      exact load_nameList cfg ld m _ name _ _ hload
    · simp at h

theorem perform_nameList (cfg : Configure) (ld : NativeLoader) (m m1 : AbstractPluginManager)
    (req : Request) (h : perform cfg ld m req = some m1) : nameList m1 = nameList m := by
  cases req with
  | load name =>
    simp only [perform] at h
    cases hl : load cfg ld m name with
    | returned r m2 calls =>
      rw [hl] at h
      simp only [Outcome.after, Option.some.injEq] at h
      exact h ▸ load_nameList cfg ld m m2 name r calls hl
    | nullCall calls => rw [hl] at h; simp [Outcome.after] at h
  | unload name =>
    simp only [perform] at h
    cases hl : unload ld m name with
    | returned r m2 calls =>
      rw [hl] at h
      simp only [Outcome.after, Option.some.injEq] at h
      exact h ▸ unload_nameList ld m m2 name r calls hl
    | nullCall calls => rw [hl] at h; simp [Outcome.after] at h
  | metadata name =>
    simp only [perform] at h
    cases hl : metadata cfg ld m name with
    | returned r m2 calls =>
      rw [hl] at h
      simp only [Outcome.after, Option.some.injEq] at h
      exact h ▸ metadata_nameList cfg ld m m2 name r calls hl
    | nullCall calls => rw [hl] at h; simp [Outcome.after] at h
  | loadAll =>
    simp only [perform] at h
    cases hl : loadAll cfg ld m with
    | returned r m2 calls =>
      rw [hl] at h
      simp only [Outcome.after, Option.some.injEq] at h
      exact h ▸ loadAllFrom_nameList cfg ld _ m m2 [] calls hl
    | nullCall calls => rw [hl] at h; simp [Outcome.after] at h

theorem performAll_nameList (cfg : Configure) (steps : List (NativeLoader × Request))
    (m m1 : AbstractPluginManager) (h : performAll cfg m steps = some m1) :
    nameList m1 = nameList m := by
  induction steps generalizing m with
  | nil =>
    simp only [performAll, Option.some.injEq] at h
    rw [h]
  | cons step rest ih =>
    obtain ⟨ld, req⟩ := step
    unfold performAll at h
    split at h
    · rename_i m2 hstep
      rw [ih m2 h]
      exact perform_nameList cfg ld m m2 req hstep
    · simp at h

/-- C10: for every directory listing, after the constructor and any sequence of
`load`, `unload`, `metadata` and `loadAll` calls that return (against any loader
behaviours), `nameList()` holds exactly the names the constructor derived from the
files of the listing, holds no name twice, and is the list `nameList()` gave right
after construction. -/
theorem nameList_exactly_discovered (cfg : Configure) (pluginDirectory : String)
    (listing : List String) (steps : List (NativeLoader × Request)) (m1 : AbstractPluginManager)
    (hrun : performAll cfg (AbstractPluginManager.new cfg pluginDirectory listing) steps
      = some m1) :
    (∀ n, n ∈ nameList m1 ↔ ∃ file ∈ listing, pluginName cfg file = some n)
    ∧ (nameList m1).Nodup
    ∧ nameList m1 = nameList (AbstractPluginManager.new cfg pluginDirectory listing) := by
  have hsame := performAll_nameList cfg steps _ m1 hrun
  refine ⟨?_, ?_, hsame⟩
  · intro n
    rw [hsame]
    show n ∈ (listing.foldl (addFile cfg) []).map Prod.fst ↔ _
    rw [mem_keys_foldl_addFile]
    simp
  · rw [hsame]
    apply StdMap.nodup_of_ascending
    exact ascending_foldl_addFile cfg listing [] (by simp)

/-- C10 at a concrete input: `libA.so` and `libA.so.bak` both give the name `A`;
`A` is loaded and unloaded and the metadata of `B` is asked for. -/
theorem nameList_exactly_discovered_witness :
    (∀ n, n ∈ nameList ⟨"/p/", [("A", { demoLoadedPlugin 7 with loadState := .NotLoaded }),
          ("B", { Plugin.new with loadState := .LoadFailed })]⟩ ↔
        ∃ file ∈ ["libB.so", "libA.so", "README", "libA.so.bak"],
          pluginName demoConfigure file = some n)
    ∧ (nameList ⟨"/p/", [("A", { demoLoadedPlugin 7 with loadState := .NotLoaded }),
          ("B", { Plugin.new with loadState := .LoadFailed })]⟩).Nodup
    ∧ nameList ⟨"/p/", [("A", { demoLoadedPlugin 7 with loadState := .NotLoaded }),
          ("B", { Plugin.new with loadState := .LoadFailed })]⟩
        = nameList (AbstractPluginManager.new demoConfigure "/p/"
            ["libB.so", "libA.so", "README", "libA.so.bak"]) :=
  nameList_exactly_discovered demoConfigure "/p/" ["libB.so", "libA.so", "README", "libA.so.bak"]
    [(demoLoader, .load "A"), (demoLoader, .unload "A"), (demoLoader, .metadata "B")]
    ⟨"/p/", [("A", { demoLoadedPlugin 7 with loadState := .NotLoaded }),
      ("B", { Plugin.new with loadState := .LoadFailed })]⟩ (by decide)

/-! ## C11: the order of `nameList()` -/

/-- The fold of `discoveryOrder` keeps its accumulator free of duplicates and
collects the names of the candidate files. -/
theorem discoveryOrder_foldl (cfg : Configure) (listing : List String) (acc : List String)
    (hacc : acc.Nodup) :
    (listing.foldl
      (fun names file =>
        match pluginName cfg file with
        | some name => if name ∈ names then names else names ++ [name]
        | none => names) acc).Nodup
    ∧ ∀ n, n ∈ listing.foldl
      (fun names file =>
        match pluginName cfg file with
        | some name => if name ∈ names then names else names ++ [name]
        | none => names) acc ↔
        n ∈ acc ∨ ∃ file ∈ listing, pluginName cfg file = some n := by
  induction listing generalizing acc with
  | nil => simp [hacc]
  | cons file rest ih =>
    rw [List.foldl_cons]
    cases hname : pluginName cfg file with
    | none =>
      obtain ⟨h1, h2⟩ := ih acc hacc
      refine ⟨h1, fun n => ?_⟩
      rw [h2 n]
      simp [hname]
    | some name =>
      dsimp only
      by_cases hmem : name ∈ acc
      · rw [if_pos hmem]
        obtain ⟨h1, h2⟩ := ih acc hacc
        refine ⟨h1, fun n => ?_⟩
        rw [h2 n]
        constructor
        · rintro (h | ⟨f, hf, hn⟩)
          · exact Or.inl h
          · exact Or.inr ⟨f, List.mem_cons_of_mem _ hf, hn⟩
        · rintro (h | ⟨f, hf, hn⟩)
          · exact Or.inl h
          · rcases List.mem_cons.1 hf with rfl | hf
            · rw [hname] at hn
              cases hn
              exact Or.inl hmem
            · exact Or.inr ⟨f, hf, hn⟩
      · rw [if_neg hmem]
        have hnd : (acc ++ [name]).Nodup := by
          rw [List.nodup_append]
          refine ⟨hacc, List.nodup_singleton _, ?_⟩
          intro a ha hb
          rw [List.mem_singleton] at hb
          exact hmem (hb ▸ ha)
        obtain ⟨h1, h2⟩ := ih (acc ++ [name]) hnd
        refine ⟨h1, fun n => ?_⟩
        rw [h2 n]
        constructor
        · rintro (h | ⟨f, hf, hn⟩)
          · rcases List.mem_append.1 h with h | h
            · exact Or.inl h
            · rw [List.mem_singleton] at h
              exact Or.inr ⟨file, List.mem_cons_self _ _, h ▸ hname⟩
          · exact Or.inr ⟨f, List.mem_cons_of_mem _ hf, hn⟩
        · rintro (h | ⟨f, hf, hn⟩)
          · exact Or.inl (List.mem_append_left _ h)
          · rcases List.mem_cons.1 hf with rfl | hf
            · rw [hname] at hn
              cases hn
              exact Or.inl (List.mem_append_right _ (List.mem_singleton.2 rfl))
            · exact Or.inr ⟨f, hf, hn⟩

/-- C11 as amended: for every directory listing, `nameList()` after construction
is in strictly ascending order of the names (the order of the keys of the
`std::map`) and is a rearrangement of the names in discovery order. -/
theorem nameList_ascending_perm (cfg : Configure) (pluginDirectory : String)
    (listing : List String) :
    (nameList (AbstractPluginManager.new cfg pluginDirectory listing)).Pairwise
        (fun a b => a.data < b.data)
    ∧ (nameList (AbstractPluginManager.new cfg pluginDirectory listing)).Perm
        (discoveryOrder cfg listing) := by
  have hasc := ascending_foldl_addFile cfg listing [] (by simp)
  refine ⟨hasc, ?_⟩
  obtain ⟨hnd, hmem⟩ := discoveryOrder_foldl cfg listing [] List.nodup_nil
  refine (List.perm_ext_iff_of_nodup (StdMap.nodup_of_ascending _ hasc) hnd).2 fun n => ?_
  show n ∈ (listing.foldl (addFile cfg) []).map Prod.fst ↔ _
  rw [mem_keys_foldl_addFile, hmem n]
  simp

/-- C11 fails as stated: for the listing `libB.so`, `libA.so` the discovery order
is `B`, `A` and `nameList()` returns `A`, `B`. -/
theorem nameList_not_discovery_order :
    nameList (AbstractPluginManager.new demoConfigure "/p/" ["libB.so", "libA.so"]) = ["A", "B"]
    ∧ discoveryOrder demoConfigure ["libB.so", "libA.so"] = ["B", "A"]
    ∧ nameList (AbstractPluginManager.new demoConfigure "/p/" ["libB.so", "libA.so"])
        ≠ discoveryOrder demoConfigure ["libB.so", "libA.so"] := by
  decide

/-! ## C12: the discovery rule -/

theorem firstOccurrence_nil (pat : List Char) :
    firstOccurrence pat [] = if pat = [] then some 0 else none := by
  rw [firstOccurrence]

theorem firstOccurrence_cons (pat : List Char) (c : Char) (cs : List Char) :
    firstOccurrence pat (c :: cs)
      = if pat.isPrefixOf (c :: cs) then some 0 else (firstOccurrence pat cs).map (· + 1) := by
  rw [firstOccurrence]

theorem firstOccurrence_cons_some (pat : List Char) (c : Char) (cs : List Char) (k : Nat)
    (h : firstOccurrence pat (c :: cs) = some k) :
    (pat.isPrefixOf (c :: cs) = true ∧ k = 0)
    ∨ (pat.isPrefixOf (c :: cs) = false ∧ ∃ j, firstOccurrence pat cs = some j ∧ k = j + 1) := by
  rw [firstOccurrence_cons] at h
  split_ifs at h with hp
  · exact Or.inl ⟨hp, by cases h; rfl⟩
  · right
    refine ⟨Bool.eq_false_iff.2 hp, ?_⟩
    cases hk : firstOccurrence pat cs with
    | none => rw [hk] at h; cases h
    | some j =>
      rw [hk] at h
      exact ⟨j, rfl, by simpa using h.symm⟩

theorem firstOccurrence_cons_none (pat : List Char) (c : Char) (cs : List Char)
    (h : firstOccurrence pat (c :: cs) = none) :
    pat.isPrefixOf (c :: cs) = false ∧ firstOccurrence pat cs = none := by
  rw [firstOccurrence_cons] at h
  split_ifs at h with hp
  refine ⟨Bool.eq_false_iff.2 hp, ?_⟩
  cases hk : firstOccurrence pat cs with
  | none => rfl
  | some j => rw [hk] at h; cases h

theorem findAt_of_firstOccurrence_some (pat s : List Char) (i k : Nat)
    (h : firstOccurrence pat s = some k) : findAt pat s i = i + k := by
  induction s generalizing i k with
  | nil =>
    rw [firstOccurrence_nil] at h
    unfold findAt
    split_ifs at h ⊢
    cases h
    rfl
  | cons c cs ih =>
    unfold findAt
    rcases firstOccurrence_cons_some pat c cs k h with ⟨hp, rfl⟩ | ⟨hp, j, hj, rfl⟩
    · simp [hp]
    · simp only [hp, Bool.false_eq_true, if_false]
      rw [ih (i + 1) j hj]
      omega

theorem findAt_of_firstOccurrence_none (pat s : List Char) (i : Nat)
    (h : firstOccurrence pat s = none) : findAt pat s i = npos := by
  induction s generalizing i with
  | nil =>
    rw [firstOccurrence_nil] at h
    unfold findAt
    split_ifs at h ⊢
    rfl
  | cons c cs ih =>
    unfold findAt
    obtain ⟨hp, hcs⟩ := firstOccurrence_cons_none pat c cs h
    simp only [hp, Bool.false_eq_true, if_false]
    exact ih (i + 1) hcs

theorem firstOccurrence_le_length (pat s : List Char) (k : Nat)
    (h : firstOccurrence pat s = some k) : k ≤ s.length := by
  induction s generalizing k with
  | nil =>
    rw [firstOccurrence_nil] at h
    split_ifs at h
    cases h
    exact le_refl _
  | cons c cs ih =>
    rcases firstOccurrence_cons_some pat c cs k h with ⟨-, rfl⟩ | ⟨-, j, hj, rfl⟩
    · exact Nat.zero_le _
    · have := ih j hj
      simp only [List.length_cons]
      omega

theorem firstOccurrence_drop (pat s : List Char) (j k : Nat)
    (h : firstOccurrence pat s = some k) (hjk : j ≤ k) :
    firstOccurrence pat (s.drop j) = some (k - j) := by
  induction j generalizing s k with
  | zero => simpa using h
  | succ j ih =>
    cases s with
    | nil =>
      rw [firstOccurrence_nil] at h
      split_ifs at h
      cases h
      omega
    | cons c cs =>
      rcases firstOccurrence_cons_some pat c cs k h with ⟨-, rfl⟩ | ⟨-, i, hi, rfl⟩
      · omega
      · rw [List.drop_succ_cons, ih cs i hi (by omega)]
        congr 1
        omega

theorem firstOccurrence_drop_none (pat s : List Char) (j : Nat)
    (h : firstOccurrence pat s = none) : firstOccurrence pat (s.drop j) = none := by
  induction j generalizing s with
  | zero => simpa using h
  | succ j ih =>
    cases s with
    | nil => simpa using h
    | cons c cs =>
      rw [List.drop_succ_cons]
      exact ih cs (firstOccurrence_cons_none pat c cs h).2

theorem firstOccurrence_eq_zero_iff (pat s : List Char) :
    firstOccurrence pat s = some 0 ↔ pat.isPrefixOf s = true := by
  cases s with
  | nil =>
    rw [firstOccurrence_nil]
    cases pat <;> simp [List.isPrefixOf]
  | cons c cs =>
    constructor
    · intro h
      rcases firstOccurrence_cons_some pat c cs 0 h with ⟨hp, -⟩ | ⟨-, j, -, hj⟩
      · exact hp
      · omega
    · intro hp
      rw [firstOccurrence_cons, if_pos hp]

theorem firstOccurrence_isSome_iff (pat s : List Char) :
    (∃ k, firstOccurrence pat s = some k) ↔ pat <:+: s := by
  induction s with
  | nil =>
    rw [firstOccurrence_nil]
    split_ifs with hp
    · simp [hp]
    · simp [hp]
  | cons c cs ih =>
    rw [List.infix_cons_iff, ← ih, firstOccurrence_cons]
    split_ifs with hp
    · simp [List.isPrefixOf_iff_prefix.1 hp]
    · have : ¬ pat <+: c :: cs := fun h => hp (List.isPrefixOf_iff_prefix.2 h)
      simp only [this, false_or]
      cases firstOccurrence pat cs <;> simp

theorem strFind_of_some (s pat : String) (k : Nat)
    (h : firstOccurrence pat.data s.data = some k) : strFind s pat = k := by
  unfold strFind
  rw [findAt_of_firstOccurrence_some _ _ 0 k h]
  omega

theorem strFind_of_none (s pat : String)
    (h : firstOccurrence pat.data s.data = none) : strFind s pat = npos :=
  findAt_of_firstOccurrence_none _ _ 0 h

/-- The test `begin == 0` of the constructor holds exactly for the file names
that start with the prefix. -/
theorem first_eq_zero_iff (cfg : Configure) (file : String) :
    (if cfg.PLUGIN_FILENAME_PREFIX ≠ "" then strFind file cfg.PLUGIN_FILENAME_PREFIX else 0) = 0
      ↔ cfg.PLUGIN_FILENAME_PREFIX.data.isPrefixOf file.data = true := by
  by_cases hp : cfg.PLUGIN_FILENAME_PREFIX = ""
  · simp [hp]
  · rw [if_pos hp, ← firstOccurrence_eq_zero_iff]
    cases hk : firstOccurrence cfg.PLUGIN_FILENAME_PREFIX.data file.data with
    | none =>
      rw [strFind_of_none _ _ hk]
      simp [npos]
    | some k =>
      rw [strFind_of_some _ _ k hk]
      simp

theorem pluginName_of_none (cfg : Configure) (file : String)
    (h : firstOccurrence cfg.PLUGIN_FILENAME_SUFFIX.data file.data = none) :
    pluginName cfg file = none := by
  unfold pluginName
  simp [strFind_of_none _ _ h]

theorem pluginName_of_some (cfg : Configure) (file : String) (k : Nat)
    (hlen : file.length < npos)
    (h : firstOccurrence cfg.PLUGIN_FILENAME_SUFFIX.data file.data = some k) :
    pluginName cfg file
      = if cfg.PLUGIN_FILENAME_PREFIX.data.isPrefixOf file.data then
          some (substr file cfg.PLUGIN_FILENAME_PREFIX.length
            (sizeSub k cfg.PLUGIN_FILENAME_PREFIX.length))
        else none := by
  have hk : k ≠ npos := by
    have := firstOccurrence_le_length _ _ k h
    have hl : file.length = file.data.length := rfl
    omega
  unfold pluginName
  dsimp only
  rw [strFind_of_some _ _ k h]
  by_cases h1 : cfg.PLUGIN_FILENAME_PREFIX.data.isPrefixOf file.data = true
  · have h0 := (first_eq_zero_iff cfg file).2 h1
    rw [if_pos ⟨h0, hk⟩, if_pos h1, h0, Nat.zero_add]
  · have h0 : ¬ (if cfg.PLUGIN_FILENAME_PREFIX ≠ "" then
        strFind file cfg.PLUGIN_FILENAME_PREFIX else 0) = 0 :=
      fun e => h1 ((first_eq_zero_iff cfg file).1 e)
    rw [if_neg (fun hc => h0 hc.1), if_neg h1]

theorem sizeSub_of_le (a b : Nat) (hba : b ≤ a) (ha : a < 18446744073709551616) :
    sizeSub a b = a - b := by
  unfold sizeSub
  omega

namespace StdMap

theorem mem_insert (m : List (String × Plugin)) (name : String) (p : Plugin)
    (kv : String × Plugin) (h : kv ∈ insert m name p) : kv ∈ m ∨ kv = (name, p) := by
  induction m with
  | nil =>
    simp only [insert, List.mem_singleton] at h
    exact Or.inr h
  | cons e rest ih =>
    obtain ⟨k, v⟩ := e
    unfold insert at h
    split_ifs at h
    · rcases List.mem_cons.1 h with h | h
      · exact Or.inr h
      · exact Or.inl h
    · rcases List.mem_cons.1 h with h | h
      · exact Or.inl (h ▸ List.mem_cons_self _ _)
      · rcases ih h with h | h
        · exact Or.inl (List.mem_cons_of_mem _ h)
        · exact Or.inr h
    · exact Or.inl h

theorem mem_of_find (m : List (String × Plugin)) (name : String) (p : Plugin)
    (h : find m name = some p) : (name, p) ∈ m := by
  induction m with
  | nil => simp [find] at h
  | cons e rest ih =>
    obtain ⟨k, v⟩ := e
    unfold find at h
    split_ifs at h with hk
    · cases h
      rw [hk]
      exact List.mem_cons_self _ _
    · exact List.mem_cons_of_mem _ (ih h)

theorem find_isSome_of_mem_keys (m : List (String × Plugin)) (name : String)
    (h : name ∈ m.map Prod.fst) : ∃ p, find m name = some p := by
  cases hf : find m name with
  | none => exact absurd h ((find_eq_none_iff m name).1 hf)
  | some p => exact ⟨p, rfl⟩

end StdMap

theorem foldl_addFile_entries (cfg : Configure) (listing : List String)
    (acc : List (String × Plugin)) (hacc : ∀ e ∈ acc, e.2 = Plugin.new) :
    ∀ e ∈ listing.foldl (addFile cfg) acc, e.2 = Plugin.new := by
  induction listing generalizing acc with
  | nil => simpa using hacc
  | cons file rest ih =>
    rw [List.foldl_cons]
    apply ih
    intro e he
    unfold addFile at he
    split at he
    · rcases StdMap.mem_insert _ _ _ e he with h1 | h1
      · exact hacc e h1
      · rw [h1]
        rfl
    · exact hacc e he

/-- Every entry made by the constructor is a fresh `Plugin` in state `Unknown`. -/
theorem new_entries_unknown (cfg : Configure) (pluginDirectory : String) (listing : List String)
    (kv : String × Plugin) (h : kv ∈ (AbstractPluginManager.new cfg pluginDirectory listing).plugins) :
    kv.2 = Plugin.new :=
  foldl_addFile_entries cfg listing [] (by simp) kv h

/-- C12 as amended: for every prefix, suffix and file name `file` (shorter than
the largest `size_t`): the constructor derives a name from `file` if and only if
`file` begins with the prefix and the suffix occurs somewhere in `file`; when the
first occurrence of the suffix in `file` is at or after the end of the prefix, the
result is that of the rule of the specification (the part of `file` strictly
between the end of the prefix and the start of that occurrence); a name derived
from a file of the listing is a key of the table in state `Unknown`; and a file
name from which no name is derived leaves the table as it is. -/
theorem discovery_rule (cfg : Configure) (file : String) (hlen : file.length < npos) :
    ((∃ name, pluginName cfg file = some name) ↔
      cfg.PLUGIN_FILENAME_PREFIX.data <+: file.data
        ∧ cfg.PLUGIN_FILENAME_SUFFIX.data <:+: file.data)
    ∧ (cfg.PLUGIN_FILENAME_PREFIX.length ≤ strFind file cfg.PLUGIN_FILENAME_SUFFIX →
      pluginName cfg file = specPluginName cfg file)
    ∧ (∀ name pluginDirectory listing, pluginName cfg file = some name → file ∈ listing →
      name ∈ nameList (AbstractPluginManager.new cfg pluginDirectory listing)
      ∧ loadState (AbstractPluginManager.new cfg pluginDirectory listing) name = .Unknown)
    ∧ (pluginName cfg file = none → ∀ plugins, addFile cfg plugins file = plugins) := by
  refine ⟨?_, ?_, ?_, ?_⟩
  · rw [← firstOccurrence_isSome_iff, ← List.isPrefixOf_iff_prefix]
    cases hk : firstOccurrence cfg.PLUGIN_FILENAME_SUFFIX.data file.data with
    | none => simp [pluginName_of_none cfg file hk]
    | some k =>
      rw [pluginName_of_some cfg file k hlen hk]
      split_ifs with hp <;> simp [hp]
  · intro hle
    unfold specPluginName
    cases hk : firstOccurrence cfg.PLUGIN_FILENAME_SUFFIX.data file.data with
    | none =>
      rw [pluginName_of_none cfg file hk, firstOccurrence_drop_none _ _ _ hk]
      simp
    | some k =>
      rw [strFind_of_some _ _ k hk] at hle
      have hkl := firstOccurrence_le_length _ _ k hk
      have hl : file.length = file.data.length := rfl
      rw [pluginName_of_some cfg file k hlen hk, firstOccurrence_drop _ _ _ k hk hle,
        sizeSub_of_le _ _ hle (by unfold npos at hlen; omega)]
      rfl
  · intro name pluginDirectory listing hname hfile
    have hmem : name ∈ nameList (AbstractPluginManager.new cfg pluginDirectory listing) := by
      show name ∈ (listing.foldl (addFile cfg) []).map Prod.fst
      rw [mem_keys_foldl_addFile]
      exact Or.inl ⟨file, hfile, hname⟩
    refine ⟨hmem, ?_⟩
    obtain ⟨p, hp⟩ := StdMap.find_isSome_of_mem_keys _ _ hmem
    have := new_entries_unknown cfg pluginDirectory listing (name, p) (StdMap.mem_of_find _ _ _ hp)
    simp only at this
    unfold loadState
    rw [hp, this]
    rfl
  · intro hnone plugins
    unfold addFile
    rw [hnone]

/-- C12 as amended, at a concrete input: the file `libA.so` with prefix `lib` and
suffix `.so`. -/
theorem discovery_rule_witness :
    ((∃ name, pluginName demoConfigure "libA.so" = some name) ↔
      demoConfigure.PLUGIN_FILENAME_PREFIX.data <+: "libA.so".data
        ∧ demoConfigure.PLUGIN_FILENAME_SUFFIX.data <:+: "libA.so".data)
    ∧ (demoConfigure.PLUGIN_FILENAME_PREFIX.length
        ≤ strFind "libA.so" demoConfigure.PLUGIN_FILENAME_SUFFIX →
      pluginName demoConfigure "libA.so" = specPluginName demoConfigure "libA.so")
    ∧ (∀ name pluginDirectory listing, pluginName demoConfigure "libA.so" = some name →
      "libA.so" ∈ listing →
      name ∈ nameList (AbstractPluginManager.new demoConfigure pluginDirectory listing)
      ∧ loadState (AbstractPluginManager.new demoConfigure pluginDirectory listing) name
          = .Unknown)
    ∧ (pluginName demoConfigure "libA.so" = none →
      ∀ plugins, addFile demoConfigure plugins "libA.so" = plugins) :=
  discovery_rule demoConfigure "libA.so" (by decide)

/-- C12 fails as stated: with prefix `lib` and suffix `b`, (1) the file name `libx`
holds the suffix only inside the prefix, so by the rule stated it is no candidate,
and the constructor enters the name `x`; (2) in `libab` the first occurrence of the
suffix at or after the end of the prefix is at position `4`, so by the rule stated
the name is `a`, and the constructor enters the name `ab`. -/
theorem discovery_rule_counterexample :
    specPluginName ⟨"lib", "b", 1, "iface"⟩ "libx" = none
    ∧ pluginName ⟨"lib", "b", 1, "iface"⟩ "libx" = some "x"
    ∧ nameList (AbstractPluginManager.new ⟨"lib", "b", 1, "iface"⟩ "/p/" ["libx"]) = ["x"]
    ∧ specPluginName ⟨"lib", "b", 1, "iface"⟩ "libab" = some "a"
    ∧ pluginName ⟨"lib", "b", 1, "iface"⟩ "libab" = some "ab"
    ∧ nameList (AbstractPluginManager.new ⟨"lib", "b", 1, "iface"⟩ "/p/" ["libab"]) = ["ab"] := by
  decide

/-! ## C13: static plugins and the table

The statement is proved against `constructWithStatic`, the construction of the
concrete manager as the specification describes it. -/

namespace StdMap

end StdMap

/-- C14: `importStaticPlugin(name, v, metadataCreator, instancer)` on the registry
`L` gives `L` with the entry `(name, metadataCreator, instancer)` appended at the
end when `v` is the version of the manager, and `L` itself otherwise; in both
cases `L` is an initial segment of the result (the entries present keep their
content and order, and no entry is removed, whatever names `L` holds). -/
theorem importStaticPlugin_appends (cfg : Configure) (L : List StaticPlugin) (name : String)
    (v : Int) (metadataCreator instancer : Nat) :
    (v = cfg.version →
      importStaticPlugin cfg L name v metadataCreator instancer
        = L ++ [{ name := name, metadataCreator := metadataCreator, instancer := instancer }])
    ∧ (v ≠ cfg.version → importStaticPlugin cfg L name v metadataCreator instancer = L)
    ∧ L <+: importStaticPlugin cfg L name v metadataCreator instancer := by
  unfold importStaticPlugin
  refine ⟨fun h => by simp [h], fun h => by simp [h], ?_⟩
  split_ifs
  · exact List.prefix_refl L
  · exact List.prefix_append L _

/-- C14 at concrete inputs: a second plugin named `S` with the version of the
manager is appended after the first; one with version `2` is dropped. -/
theorem importStaticPlugin_appends_witness :
    importStaticPlugin demoConfigure [{ name := "S", metadataCreator := 501, instancer := 502 }]
        "S" 1 601 602
      = [{ name := "S", metadataCreator := 501, instancer := 502 }]
          ++ [{ name := "S", metadataCreator := 601, instancer := 602 }]
    ∧ importStaticPlugin demoConfigure [{ name := "S", metadataCreator := 501, instancer := 502 }]
        "T" 2 601 602
      = [{ name := "S", metadataCreator := 501, instancer := 502 }] :=
  ⟨(importStaticPlugin_appends demoConfigure
      [{ name := "S", metadataCreator := 501, instancer := 502 }] "S" 1 601 602).1 (by decide),
   (importStaticPlugin_appends demoConfigure
      [{ name := "S", metadataCreator := 501, instancer := 502 }] "T" 2 601 602).2.1 (by decide)⟩

/-! ## C15: handles and states -/

namespace StdMap

theorem mem_assign (m : List (String × Plugin)) (name : String) (q : Plugin)
    (kv : String × Plugin) (h : kv ∈ assign m name q) : kv ∈ m ∨ kv.2 = q := by
  induction m with
  | nil => simp [assign] at h
  | cons e rest ih =>
    obtain ⟨k, v⟩ := e
    unfold assign at h
    split_ifs at h
    · rcases List.mem_cons.1 h with h | h
      · exact Or.inr (by rw [h])
      · exact Or.inl (List.mem_cons_of_mem _ h)
    · rcases List.mem_cons.1 h with h | h
      · exact Or.inl (h ▸ List.mem_cons_self _ _)
      · rcases ih h with h | h
        · exact Or.inl (List.mem_cons_of_mem _ h)
        · exact Or.inr h

end StdMap

/-- A load that returns leaves the table as it was or assigns to an entry that
was in state `Unknown` without a change of its handle, or with the state `LoadOk`
and a handle that is not null. -/
theorem load_assign_cases (cfg : Configure) (ld : NativeLoader) (m m1 : AbstractPluginManager)
    (name : String) (r : LoadState) (calls : List Call)
    (h : load cfg ld m name = .returned r m1 calls) :
    m1 = m ∨ ∃ plugin q, StdMap.find m.plugins name = some plugin
      ∧ plugin.loadState = .Unknown ∧ m1 = m.assign name q
      ∧ ((q.handle = plugin.handle ∧ (q.loadState = .LoadFailed
            ∨ q.loadState = .WrongPluginVersion ∨ q.loadState = .WrongInterfaceVersion))
          ∨ (q.loadState = .LoadOk ∧ q.handle ≠ 0)) := by
  unfold load at h
  split at h
  · simp only [Outcome.returned.injEq] at h
    exact Or.inl h.2.1.symm
  · rename_i plugin hfind
    dsimp only at h
    split_ifs at h with h1 h2 <;> simp only [Outcome.returned.injEq, reduceCtorEq] at h
    · exact Or.inl h.2.1.symm
    all_goals
      have hst : plugin.loadState = .Unknown := by
        by_contra hne
        exact h1 (flagTest_of_ne_unknown hne)
      refine Or.inr ⟨plugin, _, hfind, hst, h.2.1.symm, ?_⟩
      first
      | exact Or.inl ⟨rfl, Or.inl rfl⟩
      | exact Or.inl ⟨rfl, Or.inr (Or.inl rfl)⟩
      | exact Or.inl ⟨rfl, Or.inr (Or.inr rfl)⟩
      | exact Or.inr ⟨rfl, h2⟩

theorem load_handleConsistent (cfg : Configure) (ld : NativeLoader) (m m1 : AbstractPluginManager)
    (name : String) (r : LoadState) (calls : List Call)
    (hm : ∀ kv ∈ m.plugins, handleConsistent kv.2)
    (h : load cfg ld m name = .returned r m1 calls) :
    ∀ kv ∈ m1.plugins, handleConsistent kv.2 := by
  rcases load_assign_cases cfg ld m m1 name r calls h with rfl | ⟨plugin, q, hfind, hst, rfl, hq⟩
  · exact hm
  · intro kv hkv
    rcases StdMap.mem_assign _ _ _ kv hkv with hkv | hkv
    · exact hm kv hkv
    · rw [hkv]
      have hp := hm (name, plugin) (StdMap.mem_of_find _ _ _ hfind)
      have h0 : plugin.handle = 0 := hp.2 (Or.inl hst)
      rcases hq with ⟨hh, hs | hs | hs⟩ | ⟨hs, hh⟩
      · exact ⟨fun e => (by rw [hs] at e; cases e), fun _ => hh.trans h0⟩
      · exact ⟨fun e => (by rw [hs] at e; cases e), fun _ => hh.trans h0⟩
      · exact ⟨fun e => (by rw [hs] at e; cases e), fun _ => hh.trans h0⟩
      · refine ⟨fun _ => hh, fun e => ?_⟩
        rw [hs] at e
        rcases e with e | e | e | e <;> cases e

theorem unload_handleConsistent (ld : NativeLoader) (m m1 : AbstractPluginManager)
    (name : String) (r : LoadState) (calls : List Call)
    (hm : ∀ kv ∈ m.plugins, handleConsistent kv.2)
    (h : unload ld m name = .returned r m1 calls) :
    ∀ kv ∈ m1.plugins, handleConsistent kv.2 := by
  unfold unload at h
  split at h
  · simp only [Outcome.returned.injEq] at h
    rw [← h.2.1]
    exact hm
  · split_ifs at h <;> simp only [Outcome.returned.injEq] at h <;> rw [← h.2.1]
    · exact hm
    all_goals
      intro kv hkv
      rcases StdMap.mem_assign _ _ _ kv hkv with hkv | hkv
      · exact hm kv hkv
      · rw [hkv]
        refine ⟨fun e => (by cases e), fun e => ?_⟩
        rcases e with e | e | e | e <;> cases e

theorem metadata_handleConsistent (cfg : Configure) (ld : NativeLoader)
    (m m1 : AbstractPluginManager) (name : String) (r : Option PluginMetadata)
    (calls : List Call) (hm : ∀ kv ∈ m.plugins, handleConsistent kv.2)
    (h : metadata cfg ld m name = .returned r m1 calls) :
    ∀ kv ∈ m1.plugins, handleConsistent kv.2 := by
  unfold metadata at h
  split at h
  · simp only [Outcome.returned.injEq] at h
    rw [← h.2.1]
    exact hm
  · split_ifs at h
    · split at h
      · rename_i hload
        simp only [Outcome.returned.injEq] at h
        rw [← h.2.1]
        exact load_handleConsistent cfg ld m _ name _ _ hm hload
      · simp at h
    · simp only [Outcome.returned.injEq] at h
      rw [← h.2.1]
      exact hm

theorem loadAllFrom_handleConsistent (cfg : Configure) (ld : NativeLoader) (names : List String)
    (m m1 : AbstractPluginManager) (calls calls1 : List Call)
    (hm : ∀ kv ∈ m.plugins, handleConsistent kv.2)
    (h : loadAllFrom cfg ld names m calls = .returned () m1 calls1) :
    ∀ kv ∈ m1.plugins, handleConsistent kv.2 := by
  induction names generalizing m calls with
  | nil =>
    simp only [loadAllFrom, Outcome.returned.injEq] at h
    rw [← h.2.1]
    exact hm
  | cons name rest ih =>
    unfold loadAllFrom at h
    split at h
    · rename_i hload
      exact ih _ _ (load_handleConsistent cfg ld m _ name _ _ hm hload) h
    · simp at h

theorem perform_handleConsistent (cfg : Configure) (ld : NativeLoader)
    (m m1 : AbstractPluginManager) (req : Request)
    (hm : ∀ kv ∈ m.plugins, handleConsistent kv.2)
    (h : perform cfg ld m req = some m1) : ∀ kv ∈ m1.plugins, handleConsistent kv.2 := by
  cases req with
  | load name =>
    simp only [perform] at h
    cases hl : load cfg ld m name with
    | returned r m2 calls =>
      rw [hl] at h
      simp only [Outcome.after, Option.some.injEq] at h
      exact h ▸ load_handleConsistent cfg ld m m2 name r calls hm hl
    | nullCall calls => rw [hl] at h; simp [Outcome.after] at h
  | unload name =>
    simp only [perform] at h
    cases hl : unload ld m name with
    | returned r m2 calls =>
      rw [hl] at h
      simp only [Outcome.after, Option.some.injEq] at h
      exact h ▸ unload_handleConsistent ld m m2 name r calls hm hl
    | nullCall calls => rw [hl] at h; simp [Outcome.after] at h
  | metadata name =>
    simp only [perform] at h
    cases hl : metadata cfg ld m name with
    | returned r m2 calls =>
      rw [hl] at h
      simp only [Outcome.after, Option.some.injEq] at h
      exact h ▸ metadata_handleConsistent cfg ld m m2 name r calls hm hl
    | nullCall calls => rw [hl] at h; simp [Outcome.after] at h
  | loadAll =>
    simp only [perform] at h
    cases hl : loadAll cfg ld m with
    | returned r m2 calls =>
      rw [hl] at h
      simp only [Outcome.after, Option.some.injEq] at h
      exact h ▸ loadAllFrom_handleConsistent cfg ld _ m m2 [] calls hm hl
    | nullCall calls => rw [hl] at h; simp [Outcome.after] at h

theorem performAll_handleConsistent (cfg : Configure) (steps : List (NativeLoader × Request))
    (m m1 : AbstractPluginManager) (hm : ∀ kv ∈ m.plugins, handleConsistent kv.2)
    (h : performAll cfg m steps = some m1) : ∀ kv ∈ m1.plugins, handleConsistent kv.2 := by
  induction steps generalizing m with
  | nil =>
    simp only [performAll, Option.some.injEq] at h
    rw [← h]
    exact hm
  | cons step rest ih =>
    obtain ⟨ld, req⟩ := step
    unfold performAll at h
    split at h
    · rename_i m2 hstep
      exact ih m2 (perform_handleConsistent cfg ld m m2 req hm hstep) h
    · simp at h

/-- C15 as amended: in every state reached from construction by a sequence of
`load`, `unload`, `metadata` and `loadAll` calls that return (against any loader
behaviours), every entry in state `LoadOk` has a handle that is not null, and
every entry in state `Unknown`, `LoadFailed`, `WrongPluginVersion` or
`WrongInterfaceVersion` has the null handle. -/
theorem handle_invariant (cfg : Configure) (pluginDirectory : String) (listing : List String)
    (steps : List (NativeLoader × Request)) (m1 : AbstractPluginManager)
    (hrun : performAll cfg (AbstractPluginManager.new cfg pluginDirectory listing) steps
      = some m1)
    (kv : String × Plugin) (hkv : kv ∈ m1.plugins) :
    (kv.2.loadState = .LoadOk → kv.2.handle ≠ 0)
    ∧ (kv.2.loadState = .Unknown ∨ kv.2.loadState = .LoadFailed
        ∨ kv.2.loadState = .WrongPluginVersion ∨ kv.2.loadState = .WrongInterfaceVersion →
      kv.2.handle = 0) := by
  refine performAll_handleConsistent cfg steps _ m1 ?_ hrun kv hkv
  intro e he
  rw [new_entries_unknown cfg pluginDirectory listing e he]
  exact ⟨fun h => (by cases h), fun _ => rfl⟩

/-- C15 as amended, at a concrete input: after `load("A")` and `load("B")` on the
directory holding `libA.so` and `libB.so`, for the entry of `A`. -/
theorem handle_invariant_witness :
    ((demoLoadedPlugin 7).loadState = .LoadOk → (demoLoadedPlugin 7).handle ≠ 0)
    ∧ ((demoLoadedPlugin 7).loadState = .Unknown ∨ (demoLoadedPlugin 7).loadState = .LoadFailed
        ∨ (demoLoadedPlugin 7).loadState = .WrongPluginVersion
        ∨ (demoLoadedPlugin 7).loadState = .WrongInterfaceVersion →
      (demoLoadedPlugin 7).handle = 0) :=
  handle_invariant demoConfigure "/p/" ["libA.so", "libB.so"]
    [(demoLoader, .load "A"), (demoLoader, .load "B")]
    ⟨"/p/", [("A", demoLoadedPlugin 7), ("B", { Plugin.new with loadState := .LoadFailed })]⟩
    (by decide) ("A", demoLoadedPlugin 7) (by decide)

/-- C15 fails as stated: from the manager built on the directory holding `libA.so`,
`load("A")` then `unload("A")` lead to a state in which the entry `A` is
`NotLoaded`, not `LoadOk`, and its handle is `7`, not null. -/
theorem handle_set_after_unload :
    performAll demoConfigure (AbstractPluginManager.new demoConfigure "/p/" ["libA.so"])
        [(demoLoader, .load "A"), (demoLoader, .unload "A")]
      = some ⟨"/p/", [("A", { loadState := .NotLoaded,
                              metadata := { interface := "iface", contents := ["A"] },
                              instancer := some 73, handle := 7 })]⟩
    ∧ ¬ ((7 : Nat) ≠ 0 ↔ LoadState.NotLoaded = LoadState.LoadOk) := by
  decide

/-! ## C16: when the metadata of an entry is written -/

/-- C16 as amended: `load` writes the metadata of the entry exactly when it calls
the metadata creator of the module. For every `load` call that returns: if the
metadata creator was not called, the metadata of the entry is what it was before
the call; that is so whenever the value returned is `NotFound` or
`WrongPluginVersion`; and if the metadata creator (at address `g`) was called, the
value returned is `WrongInterfaceVersion`, `LoadFailed` or `LoadOk` and the
metadata of the entry is what the function at `g` made of the previous value. -/
theorem load_metadata_frame (cfg : Configure) (ld : NativeLoader) (m : AbstractPluginManager)
    (name : String) (r : LoadState) (m1 : AbstractPluginManager) (calls : List Call)
    (hret : load cfg ld m name = .returned r m1 calls) :
    ((∀ g, Call.callMetadataCreator g ∉ calls) →
      (StdMap.find m1.plugins name).map Plugin.metadata
        = (StdMap.find m.plugins name).map Plugin.metadata)
    ∧ (r = .NotFound ∨ r = .WrongPluginVersion → ∀ g, Call.callMetadataCreator g ∉ calls)
    ∧ (∀ g, Call.callMetadataCreator g ∈ calls →
      (r = .WrongInterfaceVersion ∨ r = .LoadFailed ∨ r = .LoadOk)
      ∧ ∃ plugin, StdMap.find m.plugins name = some plugin
        ∧ (StdMap.find m1.plugins name).map Plugin.metadata
            = some (ld.callMetadataCreator g plugin.metadata)) := by
  unfold load at hret
  split at hret
  · simp only [Outcome.returned.injEq] at hret
    obtain ⟨-, rfl, rfl⟩ := hret
    simp
  · rename_i plugin hfind
    dsimp only at hret
    split_ifs at hret <;> simp only [Outcome.returned.injEq, reduceCtorEq] at hret <;>
      obtain ⟨rfl, rfl, rfl⟩ := hret <;>
      simp_all [AbstractPluginManager.assign, StdMap.find_assign_self _ hfind]

/-- C16 as amended, at a concrete input: the load of `libV.so` returns
`WrongPluginVersion`, so the metadata creator was not called and the metadata of
the entry is unchanged. -/
theorem load_metadata_frame_witness :
    (StdMap.find
        (AbstractPluginManager.mk "/p/"
          [("V", { Plugin.new with loadState := .WrongPluginVersion })]).plugins "V").map
        Plugin.metadata
      = (StdMap.find (AbstractPluginManager.mk "/p/" [("V", Plugin.new)]).plugins "V").map
          Plugin.metadata := by
  have h := load_metadata_frame demoConfigure demoLoader ⟨"/p/", [("V", Plugin.new)]⟩ "V"
    .WrongPluginVersion ⟨"/p/", [("V", { Plugin.new with loadState := .WrongPluginVersion })]⟩
    [.dlopen "/p/libV.so" 8, .dlsym 8 "pluginVersion" 81, .callVersion 81, .callVersion 81,
      .dlclose 8] (by decide)
  exact h.1 (h.2.1 (Or.inr rfl))

/-- C16 fails as stated: the load of `libI.so` returns `WrongInterfaceVersion`, and
the load of `libK.so` returns `LoadFailed` (no `pluginInstancer`); in both the
metadata of the entry, default before the call, is what the metadata creator of
the module wrote. -/
theorem load_failure_writes_metadata :
    load demoConfigure demoLoader ⟨"/p/", [("I", Plugin.new)]⟩ "I"
        = .returned .WrongInterfaceVersion
            ⟨"/p/", [("I", { Plugin.new with
                              metadata := { interface := "other", contents := ["I"] },
                              loadState := .WrongInterfaceVersion })]⟩
            [.dlopen "/p/libI.so" 10, .dlsym 10 "pluginVersion" 101, .callVersion 101,
             .callVersion 101, .dlsym 10 "pluginMetadataCreator" 102, .callMetadataCreator 102,
             .dlclose 10]
    ∧ load demoConfigure demoLoader ⟨"/p/", [("K", Plugin.new)]⟩ "K"
        = .returned .LoadFailed
            ⟨"/p/", [("K", { Plugin.new with
                              metadata := { interface := "iface", contents := ["A"] },
                              loadState := .LoadFailed })]⟩
            [.dlopen "/p/libK.so" 13, .dlsym 13 "pluginVersion" 131, .callVersion 131,
             .callVersion 131, .dlsym 13 "pluginMetadataCreator" 132, .callMetadataCreator 132,
             .dlsym 13 "pluginInstancer" 0, .dlclose 13]
    ∧ ({ interface := "other", contents := ["I"] } : PluginMetadata) ≠ Plugin.new.metadata
    ∧ ({ interface := "iface", contents := ["A"] } : PluginMetadata) ≠ Plugin.new.metadata := by
  decide

/-! ## C17: unload of a static entry -/

/-- C17, the code evaluated at the failing input: for the entry `S` in state
`IsStatic` (null handle), `load("S")` returns `IsStatic` and does nothing, but
`unload("S")` calls `dlclose` on the null handle and, as that fails, returns
`UnloadFailed` and stores it; with a loader whose `dlclose` succeeds it returns
and stores `NotLoaded`. -/
theorem unload_static_calls_dlclose :
    load demoConfigure demoLoader
        ⟨"/p/", [("S", { Plugin.new with loadState := .IsStatic, instancer := some 502 })]⟩ "S"
      = .returned .IsStatic
          ⟨"/p/", [("S", { Plugin.new with loadState := .IsStatic, instancer := some 502 })]⟩ []
    ∧ unload demoLoader
        ⟨"/p/", [("S", { Plugin.new with loadState := .IsStatic, instancer := some 502 })]⟩ "S"
      = .returned .UnloadFailed
          ⟨"/p/", [("S", { Plugin.new with loadState := .UnloadFailed, instancer := some 502 })]⟩
          [.dlclose 0]
    ∧ unload { demoLoader with dlclose := fun _ => 0 }
        ⟨"/p/", [("S", { Plugin.new with loadState := .IsStatic, instancer := some 502 })]⟩ "S"
      = .returned .NotLoaded
          ⟨"/p/", [("S", { Plugin.new with loadState := .NotLoaded, instancer := some 502 })]⟩
          [.dlclose 0] := by
  decide

/-! ## C18: the transitions of `unload` -/

/-- C18: for an entry in state `LoadOk` or `UnloadFailed`, `unload(name)` makes one
native call, `dlclose` of the handle stored in the entry. If `dlclose` succeeds
(returns `0`) the state stored and the value returned are `NotLoaded`. If it fails
they are `UnloadFailed`, and a following `unload(name)`, against any loader, calls
`dlclose` of the same handle again and returns `NotLoaded` or `UnloadFailed`.
Whenever an `unload` makes a native call, the value it returns is `NotLoaded` or
`UnloadFailed`. -/
theorem unload_transitions (ld : NativeLoader) (m : AbstractPluginManager) (name : String)
    (plugin : Plugin) (hfind : StdMap.find m.plugins name = some plugin)
    (hstate : plugin.loadState = .LoadOk ∨ plugin.loadState = .UnloadFailed) :
    (ld.dlclose plugin.handle = 0 →
      unload ld m name
        = .returned .NotLoaded (m.assign name { plugin with loadState := .NotLoaded })
            [.dlclose plugin.handle]
      ∧ loadState (m.assign name { plugin with loadState := .NotLoaded }) name = .NotLoaded)
    ∧ (ld.dlclose plugin.handle ≠ 0 →
      unload ld m name
        = .returned .UnloadFailed (m.assign name { plugin with loadState := .UnloadFailed })
            [.dlclose plugin.handle]
      ∧ loadState (m.assign name { plugin with loadState := .UnloadFailed }) name
          = .UnloadFailed
      ∧ ∀ ld2 : NativeLoader, ∃ r m2,
          unload ld2 (m.assign name { plugin with loadState := .UnloadFailed }) name
            = .returned r m2 [.dlclose plugin.handle]
          ∧ (r = .NotLoaded ∨ r = .UnloadFailed))
    ∧ (∀ (m0 : AbstractPluginManager) (n : String) r m1 calls,
      unload ld m0 n = .returned r m1 calls → calls ≠ [] →
      r = .NotLoaded ∨ r = .UnloadFailed) := by
  have hflag : flagTest plugin.loadState = true := by
    rcases hstate with h | h <;> rw [h] <;> decide
  refine ⟨?_, ?_, ?_⟩
  · intro hclose
    refine ⟨by simp [unload, hfind, hflag, hclose], ?_⟩
    simp [loadState, AbstractPluginManager.assign, StdMap.find_assign_self _ hfind]
  · intro hclose
    refine ⟨by simp [unload, hfind, hflag, hclose], ?_, ?_⟩
    · simp [loadState, AbstractPluginManager.assign, StdMap.find_assign_self _ hfind]
    · intro ld2
      have hfind2 : StdMap.find (m.assign name { plugin with loadState := .UnloadFailed }).plugins
          name = some { plugin with loadState := .UnloadFailed } := by
        simp [AbstractPluginManager.assign, StdMap.find_assign_self _ hfind]
      have hflag2 : flagTest LoadState.UnloadFailed = true := by decide
      by_cases h2 : ld2.dlclose plugin.handle = 0
      · exact ⟨.NotLoaded,
          (m.assign name { plugin with loadState := .UnloadFailed }).assign name
            { plugin with loadState := .NotLoaded },
          by simp [unload, hfind2, hflag2, h2], Or.inl rfl⟩
      · exact ⟨.UnloadFailed,
          (m.assign name { plugin with loadState := .UnloadFailed }).assign name
            { plugin with loadState := .UnloadFailed },
          by simp [unload, hfind2, hflag2, h2], Or.inr rfl⟩
  · intro m0 n r m1 calls hret hcalls
    unfold unload at hret
    split at hret
    · simp only [Outcome.returned.injEq] at hret
      exact absurd hret.2.2.symm hcalls
    · split_ifs at hret <;> simp only [Outcome.returned.injEq] at hret
      · exact absurd hret.2.2.symm hcalls
      · exact Or.inr hret.1.symm
      · exact Or.inl hret.1.symm

/-- C18 at concrete inputs: the loaded entry `A` (handle `7`, which closes), and
the loaded entry `A` against a loader whose `dlclose` fails. -/
theorem unload_transitions_witness :
    (unload demoLoader ⟨"/p/", [("A", demoLoadedPlugin 7)]⟩ "A"
        = .returned .NotLoaded
            (AbstractPluginManager.assign ⟨"/p/", [("A", demoLoadedPlugin 7)]⟩ "A"
              { demoLoadedPlugin 7 with loadState := .NotLoaded })
            [.dlclose (demoLoadedPlugin 7).handle]
      ∧ loadState (AbstractPluginManager.assign ⟨"/p/", [("A", demoLoadedPlugin 7)]⟩ "A"
              { demoLoadedPlugin 7 with loadState := .NotLoaded }) "A" = .NotLoaded)
    ∧ (unload { demoLoader with dlclose := fun _ => 1 } ⟨"/p/", [("A", demoLoadedPlugin 7)]⟩ "A"
        = .returned .UnloadFailed
            (AbstractPluginManager.assign ⟨"/p/", [("A", demoLoadedPlugin 7)]⟩ "A"
              { demoLoadedPlugin 7 with loadState := .UnloadFailed })
            [.dlclose (demoLoadedPlugin 7).handle]
      ∧ loadState (AbstractPluginManager.assign ⟨"/p/", [("A", demoLoadedPlugin 7)]⟩ "A"
              { demoLoadedPlugin 7 with loadState := .UnloadFailed }) "A" = .UnloadFailed
      ∧ ∀ ld2 : NativeLoader, ∃ r m2,
          unload ld2 (AbstractPluginManager.assign ⟨"/p/", [("A", demoLoadedPlugin 7)]⟩ "A"
              { demoLoadedPlugin 7 with loadState := .UnloadFailed }) "A"
            = .returned r m2 [.dlclose (demoLoadedPlugin 7).handle]
          ∧ (r = .NotLoaded ∨ r = .UnloadFailed)) :=
  ⟨(unload_transitions demoLoader ⟨"/p/", [("A", demoLoadedPlugin 7)]⟩ "A" (demoLoadedPlugin 7)
      (by decide) (Or.inl rfl)).1 (by decide),
   (unload_transitions { demoLoader with dlclose := fun _ => 1 }
      ⟨"/p/", [("A", demoLoadedPlugin 7)]⟩ "A" (demoLoadedPlugin 7)
      (by decide) (Or.inl rfl)).2.1 (by decide)⟩

/-! ## C19: `metadata(name)` -/

/-- C19: `metadata(name)` returns the null pointer, with the manager unchanged and
without a native call, when `name` is not a key of the table. When the entry is in
state `Unknown` it does what `load(name)` does (the same manager afterwards, the
same native calls; it does not return when `load(name)` does not) and the value
returned is the metadata of the entry after that load. When the entry is in any
other state it returns the metadata stored in the entry, with the manager
unchanged and without a native call. -/
theorem metadata_cases (cfg : Configure) (ld : NativeLoader) (m : AbstractPluginManager)
    (name : String) :
    (name ∉ nameList m → metadata cfg ld m name = .returned none m [])
    ∧ (∀ plugin, StdMap.find m.plugins name = some plugin → plugin.loadState = .Unknown →
      (∀ r m1 calls, load cfg ld m name = .returned r m1 calls →
        ∃ entry, StdMap.find m1.plugins name = some entry
          ∧ metadata cfg ld m name = .returned (some entry.metadata) m1 calls)
      ∧ (∀ calls, load cfg ld m name = .nullCall calls →
        metadata cfg ld m name = .nullCall calls))
    ∧ (∀ plugin, StdMap.find m.plugins name = some plugin → plugin.loadState ≠ .Unknown →
      metadata cfg ld m name = .returned (some plugin.metadata) m []) := by
  refine ⟨?_, ?_, ?_⟩
  · intro h
    have hnone : StdMap.find m.plugins name = none := (StdMap.find_eq_none_iff _ _).2 h
    simp [metadata, hnone]
  · intro plugin hfind hstate
    constructor
    · intro r m1 calls hload
      have hkey : name ∈ nameList m1 := by
        rw [load_nameList cfg ld m m1 name r calls hload]
        by_contra hn
        rw [(StdMap.find_eq_none_iff _ _).2 hn] at hfind
        cases hfind
      obtain ⟨entry, hentry⟩ := StdMap.find_isSome_of_mem_keys _ _ hkey
      refine ⟨entry, hentry, ?_⟩
      simp [metadata, hfind, hstate, hload, hentry]
    · intro calls hload
      simp [metadata, hfind, hstate, hload]
  · intro plugin hfind hstate
    simp [metadata, hfind, hstate]

/-- C19 at concrete inputs: the unknown name `missing`; the entry `A` in state
`Unknown`, whose load succeeds; the loaded entry `A`. -/
theorem metadata_cases_witness :
    metadata demoConfigure demoLoader ⟨"/p/", [("A", Plugin.new)]⟩ "missing"
        = .returned none ⟨"/p/", [("A", Plugin.new)]⟩ []
    ∧ (∃ entry, StdMap.find (AbstractPluginManager.mk "/p/" [("A", demoLoadedPlugin 7)]).plugins "A"
          = some entry
        ∧ metadata demoConfigure demoLoader ⟨"/p/", [("A", Plugin.new)]⟩ "A"
          = .returned (some entry.metadata) ⟨"/p/", [("A", demoLoadedPlugin 7)]⟩
              [.dlopen "/p/libA.so" 7, .dlsym 7 "pluginVersion" 71, .callVersion 71,
               .callVersion 71, .dlsym 7 "pluginMetadataCreator" 72, .callMetadataCreator 72,
               .dlsym 7 "pluginInstancer" 73])
    ∧ metadata demoConfigure demoLoader ⟨"/p/", [("A", demoLoadedPlugin 7)]⟩ "A"
        = .returned (some (demoLoadedPlugin 7).metadata) ⟨"/p/", [("A", demoLoadedPlugin 7)]⟩ [] :=
  ⟨(metadata_cases demoConfigure demoLoader ⟨"/p/", [("A", Plugin.new)]⟩ "missing").1 (by decide),
   ((metadata_cases demoConfigure demoLoader ⟨"/p/", [("A", Plugin.new)]⟩ "A").2.1
      Plugin.new (by decide) (by decide)).1 .LoadOk ⟨"/p/", [("A", demoLoadedPlugin 7)]⟩ _
      (by decide),
   (metadata_cases demoConfigure demoLoader ⟨"/p/", [("A", demoLoadedPlugin 7)]⟩ "A").2.2
      (demoLoadedPlugin 7) (by decide) (by decide)⟩

/-! ## C20: `loadAll()` -/

/-- A load that returns changes no entry under another name and keeps the
plugin directory. -/
theorem load_frame (cfg : Configure) (ld : NativeLoader) (m m1 : AbstractPluginManager)
    (name : String) (r : LoadState) (calls : List Call)
    (h : load cfg ld m name = .returned r m1 calls) :
    m1.pluginDirectory = m.pluginDirectory
    ∧ ∀ other, other ≠ name → StdMap.find m1.plugins other = StdMap.find m.plugins other := by
  rcases load_manager_cases cfg ld m m1 name r calls h with rfl | ⟨p, rfl⟩
  · exact ⟨rfl, fun _ _ => rfl⟩
  · exact ⟨rfl, fun other ho => StdMap.find_assign_of_ne _ p ho⟩

/-- The value returned by a load is `NotFound` for a name that is no key, and
otherwise the state stored in the entry afterwards, which is not `Unknown`. -/
theorem load_returned_state (cfg : Configure) (ld : NativeLoader) (m m1 : AbstractPluginManager)
    (name : String) (r : LoadState) (calls : List Call)
    (h : load cfg ld m name = .returned r m1 calls) :
    (StdMap.find m.plugins name = none ∧ r = .NotFound ∧ m1 = m)
    ∨ ∃ q, StdMap.find m1.plugins name = some q ∧ q.loadState = r ∧ r ≠ .Unknown := by
  unfold load at h
  split at h
  · rename_i hnone
    simp only [Outcome.returned.injEq] at h
    exact Or.inl ⟨hnone, h.1.symm, h.2.1.symm⟩
  · rename_i plugin hfind
    right
    dsimp only at h
    split_ifs at h with h1 <;> simp only [Outcome.returned.injEq, reduceCtorEq] at h <;>
      obtain ⟨rfl, rfl, -⟩ := h
    · exact ⟨plugin, hfind, rfl, (flagTest_eq_true_iff _).1 h1⟩
    all_goals
      exact ⟨_, StdMap.find_assign_self _ hfind, rfl, by decide⟩

/-- A load that returned, done again, returns the same value, changes nothing and
makes no native call. -/
theorem load_twice (cfg : Configure) (ld : NativeLoader) (m m1 : AbstractPluginManager)
    (name : String) (r : LoadState) (calls : List Call)
    (h : load cfg ld m name = .returned r m1 calls) :
    load cfg ld m1 name = .returned r m1 [] := by
  rcases load_returned_state cfg ld m m1 name r calls h with ⟨hnone, rfl, rfl⟩ | ⟨q, hq, rfl, hne⟩
  · simp [load, hnone]
  · exact load_of_ne_unknown cfg ld m1 name q hq hne

/-- The result of `load(name)` depends on the manager only through the plugin
directory and the entry under `name`: two managers that agree on these give the
same value, the same native calls and the same entry under `name` afterwards, or
both fail to return. -/
theorem load_congr (cfg : Configure) (ld : NativeLoader) (m m' : AbstractPluginManager)
    (name : String) (hd : m.pluginDirectory = m'.pluginDirectory)
    (hf : StdMap.find m.plugins name = StdMap.find m'.plugins name) :
    (∀ r m2 calls, load cfg ld m name = .returned r m2 calls →
      ∃ m2', load cfg ld m' name = .returned r m2' calls
        ∧ StdMap.find m2'.plugins name = StdMap.find m2.plugins name)
    ∧ (∀ calls, load cfg ld m name = .nullCall calls → load cfg ld m' name = .nullCall calls) := by
  have hpath : modulePath cfg m' name = modulePath cfg m name := by
    unfold modulePath
    rw [hd]
  constructor
  · intro r m2 calls h
    unfold load at h ⊢
    rw [← hf, hpath]
    split at h
    · rename_i hnone
      simp only [Outcome.returned.injEq] at h
      obtain ⟨rfl, rfl, rfl⟩ := h
      refine ⟨m', ?_, hf.symm⟩
      simp [hnone]
    · rename_i plugin hfind
      have hfind' : StdMap.find m'.plugins name = some plugin := hf ▸ hfind
      clear hf
      dsimp only at h
      split_ifs at h with h1 h2 h3 h4 h5 h6 h7 h8 <;>
        simp only [Outcome.returned.injEq, reduceCtorEq] at h <;>
        obtain ⟨rfl, rfl, rfl⟩ := h
      · exact ⟨m', by simp [hfind, h1], by rw [hfind', hfind]⟩
      all_goals
        simp [hfind, *, AbstractPluginManager.assign, StdMap.find_assign_self _ hfind,
          StdMap.find_assign_self _ hfind']
  · intro calls h
    rw [load_nullCall_iff] at h ⊢
    obtain ⟨plugin, hfind, hs, ho, hsym, hc⟩ := h
    refine ⟨plugin, hf ▸ hfind, hs, ?_, ?_, ?_⟩
    · rw [hpath]; exact ho
    · rw [hpath]; exact hsym
    · rw [hpath]; exact hc

/-- The loop of `loadAll()` over any list of names: when it returns, the entry
under each name of the list is the one a single `load` of that name leaves when
done on the initial manager, and the entries under other names are untouched. -/
theorem loadAllFrom_entries (cfg : Configure) (ld : NativeLoader) (names : List String)
    (m m1 : AbstractPluginManager) (calls calls1 : List Call)
    (h : loadAllFrom cfg ld names m calls = .returned () m1 calls1) :
    m1.pluginDirectory = m.pluginDirectory
    ∧ ∀ name,
      (name ∈ names → ∃ r m2 c, load cfg ld m name = .returned r m2 c
        ∧ StdMap.find m1.plugins name = StdMap.find m2.plugins name)
      ∧ (name ∉ names → StdMap.find m1.plugins name = StdMap.find m.plugins name) := by
  induction names generalizing m calls with
  | nil =>
    simp only [loadAllFrom, Outcome.returned.injEq] at h
    rw [← h.2.1]
    exact ⟨rfl, fun name => ⟨fun hn => absurd hn (List.not_mem_nil _), fun _ => rfl⟩⟩
  | cons n rest ih =>
    unfold loadAllFrom at h
    split at h
    · rename_i r0 m0 c0 hload
      obtain ⟨hdir, hrest⟩ := ih m0 _ h
      obtain ⟨hdir0, hframe⟩ := load_frame cfg ld m m0 n r0 c0 hload
      refine ⟨hdir.trans hdir0, fun name => ⟨fun hmem => ?_, fun hmem => ?_⟩⟩
      · by_cases hin : name ∈ rest
        · obtain ⟨r, m2, c, hl, hfind⟩ := (hrest name).1 hin
          by_cases hname : name = n
          · subst hname
            rw [load_twice cfg ld m m0 name r0 c0 hload] at hl
            simp only [Outcome.returned.injEq] at hl
            obtain ⟨-, rfl, -⟩ := hl
            exact ⟨r0, m0, c0, hload, hfind⟩
          · obtain ⟨m2', hl', hfind'⟩ := (load_congr cfg ld m0 m name hdir0
              (hframe name hname)).1 r m2 c hl
            exact ⟨r, m2', c, hl', hfind.trans hfind'.symm⟩
        · have hname : name = n := by
            rcases List.mem_cons.1 hmem with h1 | h1
            · exact h1
            · exact absurd h1 hin
          subst hname
          exact ⟨r0, m0, c0, hload, (hrest name).2 hin⟩
      · have hne : name ≠ n := fun e => hmem (e ▸ List.mem_cons_self _ _)
        have hnr : name ∉ rest := fun e => hmem (List.mem_cons_of_mem _ e)
        exact ((hrest name).2 hnr).trans (hframe name hne)
    · simp at h

/-- The loop of `loadAll()` returns when the single `load` of each name of the
list, done on the initial manager, returns. -/
theorem loadAllFrom_returns (cfg : Configure) (ld : NativeLoader) (names : List String)
    (m : AbstractPluginManager) (calls : List Call)
    (h : ∀ name ∈ names, ∃ r m2 c, load cfg ld m name = .returned r m2 c) :
    ∃ m1 calls1, loadAllFrom cfg ld names m calls = .returned () m1 calls1 := by
  induction names generalizing m calls with
  | nil => exact ⟨m, calls, rfl⟩
  | cons n rest ih =>
    obtain ⟨r0, m0, c0, hload⟩ := h n (List.mem_cons_self _ _)
    obtain ⟨hdir0, hframe⟩ := load_frame cfg ld m m0 n r0 c0 hload
    unfold loadAllFrom
    rw [hload]
    apply ih
    intro name hmem
    by_cases hname : name = n
    · subst hname
      exact ⟨r0, m0, [], load_twice cfg ld m m0 name r0 c0 hload⟩
    · obtain ⟨r, m2, c, hl⟩ := h name (List.mem_cons_of_mem _ hmem)
      obtain ⟨m2', hl', -⟩ := (load_congr cfg ld m m0 name hdir0.symm
        (hframe name hname).symm).1 r m2 c hl
      exact ⟨r, m2', c, hl'⟩

/-- C20: let `names` be the known names in any order; `loadAll()` is the loop
`loadAllFrom` over them in the order of `nameList()`. The loop returns if and only
if the `load` of each known name alone, on the initial manager, returns. When it
does, afterwards the entry of each known name is the one that `load(name)` alone
leaves when done on the initial manager, and its state is the value that load
returns. A `load` of one name changes no entry under another name. -/
theorem loadAll_independent (cfg : Configure) (ld : NativeLoader) (m : AbstractPluginManager)
    (names : List String) (hperm : names.Perm (nameList m)) :
    ((∃ m1 calls, loadAllFrom cfg ld names m [] = .returned () m1 calls) ↔
      ∀ name ∈ nameList m, ∃ r m2 c, load cfg ld m name = .returned r m2 c)
    ∧ (∀ m1 calls, loadAllFrom cfg ld names m [] = .returned () m1 calls →
      ∀ name ∈ nameList m, ∀ r m2 c, load cfg ld m name = .returned r m2 c →
        StdMap.find m1.plugins name = StdMap.find m2.plugins name ∧ loadState m1 name = r)
    ∧ (∀ name other r m2 c, load cfg ld m name = .returned r m2 c → other ≠ name →
      StdMap.find m2.plugins other = StdMap.find m.plugins other)
    ∧ loadAll cfg ld m = loadAllFrom cfg ld (nameList m) m [] := by
  refine ⟨⟨?_, ?_⟩, ?_, ?_, rfl⟩
  · rintro ⟨m1, calls, hrun⟩ name hmem
    obtain ⟨r, m2, c, hl, -⟩ :=
      ((loadAllFrom_entries cfg ld names m m1 [] calls hrun).2 name).1 (hperm.mem_iff.2 hmem)
    exact ⟨r, m2, c, hl⟩
  · intro h
    exact loadAllFrom_returns cfg ld names m [] fun name hmem => h name (hperm.mem_iff.1 hmem)
  · intro m1 calls hrun name hmem r m2 c hl
    obtain ⟨r', m2', c', hl', hfind⟩ :=
      ((loadAllFrom_entries cfg ld names m m1 [] calls hrun).2 name).1 (hperm.mem_iff.2 hmem)
    rw [hl] at hl'
    simp only [Outcome.returned.injEq] at hl'
    obtain ⟨rfl, rfl, rfl⟩ := hl'
    refine ⟨hfind, ?_⟩
    rcases load_returned_state cfg ld m m2 name r c hl with ⟨hnone, -, -⟩ | ⟨q, hq, hqr, -⟩
    · exact absurd hmem ((StdMap.find_eq_none_iff _ _).1 hnone)
    · unfold loadState
      rw [hfind, hq]
      exact hqr
  · intro name other r m2 c hl hne
    exact (load_frame cfg ld m m2 name r c hl).2 other hne

/-- C20 at a concrete input: the table holds `A` (well formed) and `B` (version
`2`), both `Unknown`, and the names are taken in the order `B`, `A`. Afterwards
the entry of `A` is the one `load("A")` alone gives, in state `LoadOk`, and the
entry of `B` is the one `load("B")` alone gives, in state `WrongPluginVersion`. -/
theorem loadAll_independent_witness :
    (StdMap.find
        (AbstractPluginManager.mk "/p/"
          [("A", demoLoadedPlugin 7),
           ("B", { Plugin.new with loadState := .WrongPluginVersion })]).plugins "A"
        = StdMap.find
            (AbstractPluginManager.mk "/p/" [("A", demoLoadedPlugin 7), ("B", Plugin.new)]).plugins
            "A"
      ∧ loadState ⟨"/p/", [("A", demoLoadedPlugin 7),
          ("B", { Plugin.new with loadState := .WrongPluginVersion })]⟩ "A" = .LoadOk)
    ∧ (StdMap.find
        (AbstractPluginManager.mk "/p/"
          [("A", demoLoadedPlugin 7),
           ("B", { Plugin.new with loadState := .WrongPluginVersion })]).plugins "B"
        = StdMap.find
            (AbstractPluginManager.mk "/p/"
              [("A", Plugin.new),
               ("B", { Plugin.new with loadState := .WrongPluginVersion })]).plugins "B"
      ∧ loadState ⟨"/p/", [("A", demoLoadedPlugin 7),
          ("B", { Plugin.new with loadState := .WrongPluginVersion })]⟩ "B"
          = .WrongPluginVersion) :=
  ⟨(loadAll_independent demoConfigure demoLoaderB ⟨"/p/", [("A", Plugin.new), ("B", Plugin.new)]⟩
      ["B", "A"] (List.Perm.swap "A" "B" [])).2.1
      ⟨"/p/", [("A", demoLoadedPlugin 7),
        ("B", { Plugin.new with loadState := .WrongPluginVersion })]⟩
      [.dlopen "/p/libB.so" 8, .dlsym 8 "pluginVersion" 81, .callVersion 81, .callVersion 81,
        .dlclose 8, .dlopen "/p/libA.so" 7, .dlsym 7 "pluginVersion" 71, .callVersion 71,
        .callVersion 71, .dlsym 7 "pluginMetadataCreator" 72, .callMetadataCreator 72,
        .dlsym 7 "pluginInstancer" 73]
      (by decide) "A" (by decide) .LoadOk
      ⟨"/p/", [("A", demoLoadedPlugin 7), ("B", Plugin.new)]⟩
      [.dlopen "/p/libA.so" 7, .dlsym 7 "pluginVersion" 71, .callVersion 71, .callVersion 71,
        .dlsym 7 "pluginMetadataCreator" 72, .callMetadataCreator 72,
        .dlsym 7 "pluginInstancer" 73]
      (by decide),
   (loadAll_independent demoConfigure demoLoaderB ⟨"/p/", [("A", Plugin.new), ("B", Plugin.new)]⟩
      ["B", "A"] (List.Perm.swap "A" "B" [])).2.1
      ⟨"/p/", [("A", demoLoadedPlugin 7),
        ("B", { Plugin.new with loadState := .WrongPluginVersion })]⟩
      [.dlopen "/p/libB.so" 8, .dlsym 8 "pluginVersion" 81, .callVersion 81, .callVersion 81,
        .dlclose 8, .dlopen "/p/libA.so" 7, .dlsym 7 "pluginVersion" 71, .callVersion 71,
        .callVersion 71, .dlsym 7 "pluginMetadataCreator" 72, .callMetadataCreator 72,
        .dlsym 7 "pluginInstancer" 73]
      (by decide) "B" (by decide) .WrongPluginVersion
      ⟨"/p/", [("A", Plugin.new), ("B", { Plugin.new with loadState := .WrongPluginVersion })]⟩
      [.dlopen "/p/libB.so" 8, .dlsym 8 "pluginVersion" 81, .callVersion 81, .callVersion 81,
        .dlclose 8]
      (by decide)⟩

end PluginManager
